import Mathlib

/-!
# rDSN: network I/O session and C service API

A shallow embedding of `src/core/tools/common/net_io.cpp` and of parts of
`src/core/core/service_api_c.cpp`.

* C++ objects become structures, member functions become functions on them.
* Calls into collaborators (the message parser, the socket, the session's
  virtual callbacks, the reference counter) are recorded, in program order, in
  a trace of events.
* Asynchronous operations issued on the socket are kept in the lists of
  outstanding operations until their completion handler runs.
* Machine integers are `Int`/`Nat` with the conversions written out.
-/

namespace dsn

/-! ## Machine integers -/

/-- Conversion to C `int` (32 bit, two's complement), as in `(int)sz`. -/
def to_int (v : Int) : Int := (v + 2147483648) % 4294967296 - 2147483648

/-- Conversion to `size_t` (64 bit, unsigned), as when an `int` is passed for a
`size_t` parameter. -/
def to_size_t (v : Int) : Nat := (v % 18446744073709551616).toNat

/-- Conversion to `unsigned int` (32 bit), the usual arithmetic conversion of an
`int` compared with an unsigned literal. -/
def to_unsigned (v : Int) : Nat := (v % 4294967296).toNat

/-- The values of type `int`. -/
def is_int (v : Int) : Prop := -2147483648 ≤ v ∧ v < 2147483648

/-! ## Messages -/

/-- The type `dsn_address_t`. -/
structure dsn_address_t where
  ip : Nat
  port : Nat
deriving DecidableEq, Repr

/-- A message (`message_ex`): its identity, the address stamped on it and its
reference count. -/
structure message_ex where
  id : Nat
  server_address : dsn_address_t
  refs : Int
deriving DecidableEq, Repr

namespace tools

/-! ## The message parser and the socket -/

/-- One entry of the scatter-gather list, `dsn_message_parser::send_buf`. -/
structure send_buf where
  buf : Nat
  sz : Nat
deriving DecidableEq, Repr

/-- The type `boost::asio::const_buffer`: address and size. -/
structure const_buffer where
  data : Nat
  size : Nat
deriving DecidableEq, Repr

/-- The virtual interface `dsn::message_parser`, over a parser state `σ`.
Every call may change the parser state. `get_message_on_receive` returns the
message (`none` is `nullptr`) and the value stored in `read_next`;
`prepare_buffers_on_send` returns its result `c`, the number of buffers it
prepared, and the contents of the `buffers` array after the call. -/
structure message_parser_if (σ : Type) where
  read_buffer_ptr : σ → Int → Nat × σ
  read_buffer_capacity : σ → Int × σ
  get_message_on_receive : σ → Int → Option message_ex × Int × σ
  get_send_buffers_count_and_total_length : σ → message_ex → (Int × Int) × σ
  prepare_buffers_on_send : σ → message_ex → Int → (Nat × (Nat → send_buf)) × σ

/-- What the session does, in program order. -/
inductive Event where
  | add_reference
  | release_reference
  | read_buffer_ptr (sz : Int)
  | read_buffer_capacity
  | async_read_some (ptr : Nat) (size : Nat)
  | read_handler (ec : Int) (length : Nat)
  | get_message_on_receive (len : Int)
  | on_message_read (msg : message_ex)
  | on_failure
  | get_send_buffers_count_and_total_length (msg : message_ex)
  | prepare_buffers_on_send (msg : message_ex) (offset : Int)
  | async_write (buffers2 : List const_buffer)
  | write_handler (ec : Int) (length : Nat)
  | on_write_completed (msg : message_ex)
  | socket_shutdown_both
  | socket_close
deriving DecidableEq, Repr

/-- An outstanding `async_write`: the message captured by the handler and the
buffer sequence handed to the socket. -/
structure write_op where
  msg : message_ex
  buffers2 : List const_buffer
deriving DecidableEq, Repr

/-- A session: reference counter, parser state, the asynchronous operations
issued on `_socket` whose handler has not run yet, and the trace. -/
structure net_io (σ : Type) where
  counter : Int
  parser : σ
  reads : List const_buffer
  writes : List write_op
  trace : List Event
deriving DecidableEq, Repr

variable {σ : Type}

/-- Append events to the trace. -/
def net_io.emit (s : net_io σ) (evs : List Event) : net_io σ :=
  { s with trace := s.trace ++ evs }

/-- Modelled from the spec: `add_reference` of the reference-counted base class
(declared outside `src/`): the count is incremented by every holder. -/
def add_reference (s : net_io σ) : net_io σ :=
  { s with counter := s.counter + 1, trace := s.trace ++ [Event.add_reference] }

/-- Modelled from the spec: `release_reference` of the reference-counted base
class (declared outside `src/`): the count is decremented on release, and the
object is destroyed only when the count reaches zero. -/
def release_reference (s : net_io σ) : net_io σ :=
  { s with counter := s.counter - 1, trace := s.trace ++ [Event.release_reference] }

/-- The virtual callback `on_failure()`. -/
def on_failure (s : net_io σ) : net_io σ := s.emit [Event.on_failure]

/-- The virtual callback `on_message_read(msg)`. -/
def on_message_read (s : net_io σ) (msg : message_ex) : net_io σ :=
  s.emit [Event.on_message_read msg]

/-- The virtual callback `on_write_completed(msg)`. -/
def on_write_completed (s : net_io σ) (msg : message_ex) : net_io σ :=
  s.emit [Event.on_write_completed msg]

/-- The call `_parser->get_message_on_receive(len, read_next)`: the new session
state, the message and `read_next`. -/
def parser_get_message (P : message_parser_if σ) (s : net_io σ) (len : Int) :
    net_io σ × Option message_ex × Int :=
  ({ s with parser := (P.get_message_on_receive s.parser len).2.2,
            trace := s.trace ++ [Event.get_message_on_receive len] },
   (P.get_message_on_receive s.parser len).1,
   (P.get_message_on_receive s.parser len).2.1)

/-! ## `net_io::do_read` -/

/-- The body of `net_io::do_read(size_t sz)` up to and including the call of
`async_read_some`, whose handler is `do_read_handler`. -/
def do_read (P : message_parser_if σ) (s : net_io σ) (sz : Nat) : net_io σ :=
  let s1 := add_reference s
  let ptr := (P.read_buffer_ptr s1.parser (to_int sz)).1
  let p1 := (P.read_buffer_ptr s1.parser (to_int sz)).2
  let remaining := (P.read_buffer_capacity p1).1
  let p2 := (P.read_buffer_capacity p1).2
  { s1 with
    parser := p2
    reads := s1.reads ++ [⟨ptr, to_size_t remaining⟩]
    trace := s1.trace ++ [Event.read_buffer_ptr (to_int sz), Event.read_buffer_capacity,
                          Event.async_read_some ptr (to_size_t remaining)] }

/-- The loop `while (msg != nullptr) { on_message_read(msg); msg = ...(0, read_next); }`
of the read handler; `none` when the fuel does not suffice. -/
def read_loop (P : message_parser_if σ) : Nat → net_io σ → Option message_ex → Int →
    Option (net_io σ × Int)
  | _, s, none, read_next => some (s, read_next)
  | 0, _, some _, _ => none
  | fuel + 1, s, some msg, _ =>
      let r := parser_get_message P (on_message_read s msg) 0
      read_loop P fuel r.1 r.2.1 r.2.2

/-- The completion handler passed to `async_read_some` in `do_read`. -/
def do_read_handler (P : message_parser_if σ) (fuel : Nat) (s : net_io σ) (ec : Int)
    (length : Nat) : Option (net_io σ) :=
  if ec ≠ 0 then
    some (release_reference (on_failure s))
  else
    let r := parser_get_message P s (to_int length)
    match read_loop P fuel r.1 r.2.1 r.2.2 with
    | none => none
    | some (s2, read_next) => some (release_reference (do_read P s2 (to_size_t read_next)))

/-! ## `net_io::write` -/

/-- The vector `buffers2` built from the first `c` entries of `buffers`. -/
def make_buffers2 (c : Nat) (buffers : Nat → send_buf) : List const_buffer :=
  (List.range c).map (fun i => ⟨(buffers i).buf, (buffers i).sz⟩)

/-- The body of `net_io::write(message_ex* msg)` up to and including the call of
`async_write`, whose handler is `write_handler`. -/
def write (P : message_parser_if σ) (s : net_io σ) (msg : message_ex) : net_io σ :=
  let p1 := (P.get_send_buffers_count_and_total_length s.parser msg).2
  let c := (P.prepare_buffers_on_send p1 msg 0).1.1
  let buffers := (P.prepare_buffers_on_send p1 msg 0).1.2
  let p2 := (P.prepare_buffers_on_send p1 msg 0).2
  let buffers2 := make_buffers2 c buffers
  let s1 : net_io σ :=
    { s with
      parser := p2
      trace := s.trace ++ [Event.get_send_buffers_count_and_total_length msg,
                           Event.prepare_buffers_on_send msg 0] }
  let s2 := add_reference s1
  { s2 with
    writes := s2.writes ++ [⟨msg, buffers2⟩]
    trace := s2.trace ++ [Event.async_write buffers2] }

/-- The completion handler passed to `async_write` in `write`; it captures `msg`. -/
def write_handler (s : net_io σ) (msg : message_ex) (ec : Int) (_length : Nat) : net_io σ :=
  if ec ≠ 0 then
    release_reference (on_failure s)
  else
    release_reference (on_write_completed s msg)

/-! ## `net_io::close` -/

/-- The exception `boost::system::system_error` (a `std::exception`), with its
error value. -/
structure system_error where
  code : Int
deriving DecidableEq, Repr

/-- How the two socket calls of `close` end for a given socket: normally, or by
throwing `system_error`. -/
structure socket_outcome where
  shutdown : Except system_error Unit
  close : Except system_error Unit

/-- The member `net_io::close()`: the `shutdown` call stands in a `try` block
whose handler catches `std::exception` and does nothing; the `close` call
follows the block. The result is how `net_io::close` itself ends. -/
def close (sock : socket_outcome) (s : net_io σ) : Except system_error Unit × net_io σ :=
  let s1 := s.emit [Event.socket_shutdown_both]
  let after_try : Except system_error Unit :=
    match sock.shutdown with
    | Except.ok u => Except.ok u
    | Except.error _ => Except.ok ()
  match after_try with
  | Except.error e => (Except.error e, s1)
  | Except.ok _ =>
      let s2 := s1.emit [Event.socket_close]
      (sock.close, s2)

/-! ## Sequences of initiations and completions -/

/-- What can happen to a session: a call of `do_read`, a call of `write`, and
the completion of the outstanding read or write with index `i`. -/
inductive Action where
  | do_read (sz : Nat)
  | write (msg : message_ex)
  | read_completes (i : Nat) (ec : Int) (length : Nat)
  | write_completes (i : Nat) (ec : Int) (length : Nat)
deriving DecidableEq, Repr

/-- One action. A completion is possible only for an operation that is
outstanding; the operation stops being outstanding when its handler is invoked. -/
def step (P : message_parser_if σ) (fuel : Nat) (s : net_io σ) : Action → Option (net_io σ)
  | Action.do_read sz => some (do_read P s sz)
  | Action.write msg => some (write P s msg)
  | Action.read_completes i ec length =>
      match s.reads[i]? with
      | none => none
      | some _ =>
          do_read_handler P fuel
            { s with reads := s.reads.eraseIdx i
                     trace := s.trace ++ [Event.read_handler ec length] } ec length
  | Action.write_completes i ec length =>
      match s.writes[i]? with
      | none => none
      | some op =>
          some (write_handler
            { s with writes := s.writes.eraseIdx i
                     trace := s.trace ++ [Event.write_handler ec length] } op.msg ec length)

/-- A sequence of actions. -/
def run_actions (P : message_parser_if σ) (fuel : Nat) : net_io σ → List Action → Option (net_io σ)
  | s, [] => some s
  | s, a :: rest => (step P fuel s a).bind (fun s1 => run_actions P fuel s1 rest)

/-- The number of outstanding asynchronous operations. -/
def outstanding (s : net_io σ) : Int := s.reads.length + s.writes.length

/-- The change of the reference count made by an event. -/
def Event.ref_delta : Event → Int
  | Event.add_reference => 1
  | Event.release_reference => -1
  | _ => 0

/-- The change of the number of outstanding operations made by an event. -/
def Event.op_delta : Event → Int
  | Event.async_read_some _ _ => 1
  | Event.async_write _ => 1
  | Event.read_handler _ _ => -1
  | Event.write_handler _ _ => -1
  | _ => 0

/-- Starting with reference count `r` and `o` outstanding operations, the count
is at least the number of outstanding operations before and after every event. -/
def refs_cover_ops : Int → Int → List Event → Prop
  | r, o, [] => o ≤ r
  | r, o, e :: es => o ≤ r ∧ refs_cover_ops (r + e.ref_delta) (o + e.op_delta) es

/-- The sum of the changes of the reference count made by the events. -/
def ref_sum (evs : List Event) : Int := (evs.map Event.ref_delta).sum

/-- The sum of the changes of the number of outstanding operations. -/
def op_sum (evs : List Event) : Int := (evs.map Event.op_delta).sum

/-- What the parser answers to the extractions of one read handler: asked first
with `len` and then with `0`, it returns the messages `msgs` one by one and then
no message, `read_next` being the value of its last answer and `p1` its state
afterwards. -/
inductive extracts (P : message_parser_if σ) : σ → Int → List message_ex → Int → σ → Prop where
  | done (p : σ) (len : Int) (read_next : Int) (p1 : σ)
      (h : P.get_message_on_receive p len = (none, read_next, p1)) :
      extracts P p len [] read_next p1
  | more (p : σ) (len : Int) (msg : message_ex) (r : Int) (p1 : σ)
      (msgs : List message_ex) (read_next : Int) (p2 : σ)
      (h : P.get_message_on_receive p len = (some msg, r, p1))
      (rest : extracts P p1 0 msgs read_next p2) :
      extracts P p len (msg :: msgs) read_next p2

/-- The events of the extraction loop after the first extraction: every message
is handed to `on_message_read` and followed by an extraction with length `0`. -/
def loop_events (msgs : List message_ex) : List Event :=
  msgs.flatMap (fun m => [Event.on_message_read m, Event.get_message_on_receive 0])

/-- Whether an action is a call of `do_read`. -/
def Action.is_do_read : Action → Bool
  | Action.do_read _ => true
  | _ => false

/-- The number of outstanding reads after an action, from the number `n`
before it: a call of `do_read` adds one, a read completion takes the finished
read away and adds one exactly when it succeeded, writes change nothing. -/
def Action.reads_after : Action → Nat → Nat
  | Action.do_read _, n => n + 1
  | Action.read_completes _ ec _, n => n - 1 + (if ec = 0 then 1 else 0)
  | _, n => n

/-- The callers of `write` wait for the completion of the previous write: in
the sequence of actions, every call of `write` finds no write outstanding. -/
def writes_serialized (P : message_parser_if σ) (fuel : Nat) : net_io σ → List Action → Prop
  | _, [] => True
  | s, a :: rest =>
      (match a with
        | Action.write _ => s.writes = []
        | _ => True) ∧
      (match step P fuel s a with
        | none => True
        | some s1 => writes_serialized P fuel s1 rest)

/-- The reference operations among the events of one action: an initiation
adds one reference and releases none; a completion releases one reference, by
its last event, and adds one exactly when it is the completion of a successful
read, which re-arms the read. -/
def ref_discipline (a : Action) (evs : List Event) : Prop :=
  match a with
  | Action.do_read _ =>
      evs.count Event.add_reference = 1 ∧ evs.count Event.release_reference = 0
  | Action.write _ =>
      evs.count Event.add_reference = 1 ∧ evs.count Event.release_reference = 0
  | Action.read_completes _ ec _ =>
      evs.count Event.add_reference = (if ec = 0 then 1 else 0) ∧
      evs.count Event.release_reference = 1 ∧
      evs.getLast? = some Event.release_reference
  | Action.write_completes _ _ _ =>
      evs.count Event.add_reference = 0 ∧
      evs.count Event.release_reference = 1 ∧
      evs.getLast? = some Event.release_reference

/-- A new session: no outstanding operation, empty trace. -/
def net_io.fresh (counter : Int) (p : σ) : net_io σ :=
  { counter := counter, parser := p, reads := [], writes := [], trace := [] }

/-- A parser for frames of four bytes, its state being the number of bytes
buffered: every extraction takes one frame when four bytes are there and
otherwise asks for the missing bytes. -/
def frame4 : message_parser_if Nat where
  read_buffer_ptr := fun p _ => (p, p)
  read_buffer_capacity := fun p => (4096 - (p : Int), p)
  get_message_on_receive := fun p len =>
    if 4 ≤ p + len.toNat then (some ⟨p + len.toNat, ⟨0, 0⟩, 0⟩, 4, p + len.toNat - 4)
    else (none, 4 - ((p + len.toNat : Nat) : Int), p + len.toNat)
  get_send_buffers_count_and_total_length := fun p _ => ((2, 24), p)
  prepare_buffers_on_send := fun p msg _ =>
    ((2, fun i => if i = 0 then ⟨1000, 16⟩ else if i = 1 then ⟨2000 + msg.id, 8⟩ else ⟨0, 0⟩), p)

end tools

/-! ## `service_api_c.cpp`: registries and the global state -/

/-- The failure of a `dassert`: the process is aborted with the diagnostic. -/
structure assertion_failure where
  message : String
deriving DecidableEq, Repr

/-- Modelled from the spec: the registry `customized_id_mgr` (declared outside
`src/`), a mapping from names to small dense integer codes: the names in the
order of their registration, the code of a name being its position. -/
structure customized_id_mgr where
  names : List String
deriving DecidableEq, Repr

/-- Modelled from the spec: `get_id`, the code of a name, `-1` for a name the
registry does not know. -/
def customized_id_mgr.get_id (m : customized_id_mgr) (name : String) : Int :=
  if name ∈ m.names then (m.names.indexOf name : Int) else -1

/-- Modelled from the spec: `register_id`, which gives a new name the next
code and leaves a registered name with the code it has. -/
def customized_id_mgr.register_id (m : customized_id_mgr) (name : String) :
    Int × customized_id_mgr :=
  if m.get_id name = -1 then ((m.names.length : Int), ⟨m.names ++ [name]⟩)
  else (m.get_id name, m)

/-- Modelled from the spec: `get_name`, the name of a code. -/
def customized_id_mgr.get_name (m : customized_id_mgr) (code : Int) : Option String :=
  if 0 ≤ code then m.names[code.toNat]? else none

/-- Modelled from the spec: `max_value`, the greatest code registered. -/
def customized_id_mgr.max_value (m : customized_id_mgr) : Int := (m.names.length : Int) - 1

/-- The static attributes of a task code (`task_spec`): kind, priority and
thread pool. -/
structure task_spec where
  type : Int
  priority : Int
  pool_code : Int
deriving DecidableEq, Repr

/-- The global `dsn_all` (`struct _all_info_`), without its pointer `engine`,
which always refers to the one service engine; `config` holds the sections of
the loaded configuration with their keys. An entry of `task_specs` is a
pointer `task_spec*`: the code whose stored specification it points to, `none`
being `nullptr`; what it points to is read through `task_spec.deref`, so a
later change of the stored specification is seen through the table. -/
structure _all_info_ where
  magic : Int
  engine_ready : Bool
  config_completed : Bool
  tool : Option String
  config : List (String × List String)
  task_specs : List (Option Int)
  memory : Option String
deriving DecidableEq, Repr

/-- The member `is_config_completed`: `magic == 0xdeadbeef && config_completed`,
the `int` field being converted to `unsigned int` for the comparison with the
unsigned literal. -/
def _all_info_.is_config_completed (a : _all_info_) : Bool :=
  to_unsigned a.magic == 3735928559 && a.config_completed

/-- The member `is_engine_ready`: `magic == 0xdeadbeef && engine_ready`. -/
def _all_info_.is_engine_ready (a : _all_info_) : Bool :=
  to_unsigned a.magic == 3735928559 && a.engine_ready

/-- The process-wide state of the service API: `dsn_all`, the three registries
(`error_code_mgr`, and `customized_id_mgr` of thread pool codes and of task
codes) and the store of task specifications. -/
structure globals where
  dsn_all : _all_info_
  error_codes : customized_id_mgr
  threadpool_codes : customized_id_mgr
  task_codes : customized_id_mgr
  task_spec_store : List (Int × task_spec)
deriving DecidableEq, Repr

/-- The state of a process before `run()`: the static `dsn_all` is
zero-initialised, `error_code_mgr` has registered `ERR_OK` in its constructor,
the other registries are empty. -/
def globals.initial : globals :=
  { dsn_all := { magic := 0, engine_ready := false, config_completed := false, tool := none,
                 config := [], task_specs := [], memory := none }
    error_codes := ⟨["ERR_OK"]⟩
    threadpool_codes := ⟨[]⟩
    task_codes := ⟨[]⟩
    task_spec_store := [] }

/-- The code of `ERR_OK`, which `error_code_mgr` registers first (the
constructor asserts `0 == err`). -/
def ERR_OK : Int := 0

/-- Modelled from the spec: `task_spec::get` (declared outside `src/`), the
specification stored for a code, `none` being `nullptr`. -/
def task_spec.get (g : globals) (code : Int) : Option task_spec :=
  (g.task_spec_store.find? (fun e => e.1 == code)).map (fun e => e.2)

/-- The pointer that `task_spec::get(code)` returns: to the specification stored
for the code, or `nullptr`. -/
def task_spec.get_ptr (g : globals) (code : Int) : Option Int :=
  (task_spec.get g code).map (fun _ => code)

/-- The specification a pointer `task_spec*` points to. -/
def task_spec.deref (g : globals) (p : Option Int) : Option task_spec :=
  p.bind (fun code => task_spec.get g code)

/-- Modelled from the spec: `task_spec::register_task_code` (declared outside
`src/`): a code gets its static attributes when it is registered, once. -/
def task_spec.register_task_code (g : globals) (code : Int) (type pri pool : Int) : globals :=
  match task_spec.get g code with
  | some _ => g
  | none => { g with task_spec_store := g.task_spec_store ++ [(code, ⟨type, pri, pool⟩)] }

/-- The function `dsn_error_register`. -/
def dsn_error_register (g : globals) (name : String) : Int × globals :=
  ((g.error_codes.register_id name).1,
   { g with error_codes := (g.error_codes.register_id name).2 })

/-- The function `dsn_threadpool_code_register`. -/
def dsn_threadpool_code_register (g : globals) (name : String) :
    Except assertion_failure (Int × globals) :=
  if g.dsn_all.is_config_completed then
    Except.error ⟨"thread pool code must be registered before the service app role is registered"⟩
  else
    Except.ok ((g.threadpool_codes.register_id name).1,
      { g with threadpool_codes := (g.threadpool_codes.register_id name).2 })

/-- The function `dsn_task_code_register`. -/
def dsn_task_code_register (g : globals) (name : String) (type pri pool : Int) :
    Except assertion_failure (Int × globals) :=
  if g.dsn_all.is_config_completed then
    Except.error ⟨"task code must be registered before the service app role is registered"⟩
  else
    let r := (g.task_codes.register_id name).1
    let g1 := { g with task_codes := (g.task_codes.register_id name).2 }
    Except.ok (r, task_spec.register_task_code g1 r type pri pool)

/-- The function `dsn_task_code_max`. -/
def dsn_task_code_max (g : globals) : Int := g.task_codes.max_value

/-- The function `run()` from its start to the statement
`dsn_all.config_completed = true`. `loaded` is the result of
`config->load(config_file, config_arguments)`, `none` when loading fails and
otherwise the configuration; `init_ok` is the result of `spec.init()`. The
result is `false` where `run` returns `false`, and `true` where it goes on. -/
def run_config (g : globals) (loaded : Option (List (String × List String))) (init_ok : Bool) :
    Bool × globals :=
  let a1 : _all_info_ :=
    { g.dsn_all with
      engine_ready := false
      config_completed := false
      tool := none
      config := []
      memory := none
      magic := to_int 3735928559 }
  match loaded with
  | none => (false, { g with dsn_all := a1 })
  | some cfg =>
      let a2 : _all_info_ :=
        { a1 with
          config := cfg
          task_specs := a1.task_specs ++
            (List.range (dsn_task_code_max g + 1).toNat).map
              (fun (i : Nat) => task_spec.get_ptr g (i : Int)) }
      if init_ok then (true, { g with dsn_all := { a2 with config_completed := true } })
      else (false, { g with dsn_all := a2 })

/-! ## `service_api_c.cpp`: the synchronous RPC call -/

/-- An RPC response task (`rpc_response_task`): its request, the response it
holds (`none` is `nullptr`), its error, its reference count, the specification
`spec()` of its code and its tracker (`none` is `nullptr`). -/
structure rpc_response_task where
  request : message_ex
  response : Option message_ex
  error : Int
  refs : Int
  spec : task_spec := ⟨1, 0, 0⟩
  tracker : Option Nat := none
deriving DecidableEq, Repr

/-- The collaborators of `dsn_rpc_call_wait`: the constructor
`new rpc_response_task(msg, nullptr, nullptr, 0)`, and the RPC engine, which
gives the task as it is when `rtask->wait()` returns after `call(msg, rtask)`. -/
structure rpc_env where
  new_task : message_ex → rpc_response_task
  call_wait : message_ex → rpc_response_task → rpc_response_task

/-- What `dsn_rpc_call_wait` does to the task and to the response. -/
inductive rpc_event where
  | rtask_add_ref
  | rpc_call
  | rtask_wait
  | msg_add_ref
  | rtask_release_ref
deriving DecidableEq, Repr

/-- The value returned by `dsn_rpc_call_wait` (`none` is `nullptr`), the task
and the request when it returns, and what it did. -/
structure call_wait_result where
  returned : Option message_ex
  rtask : rpc_response_task
  request : message_ex
  log : List rpc_event
deriving DecidableEq, Repr

/-- The member `add_ref` of a message. -/
def message_ex.add_ref (m : message_ex) : message_ex := { m with refs := m.refs + 1 }

/-- Modelled from the spec: `add_ref` of a task (declared outside `src/`). -/
def rpc_response_task.add_ref (t : rpc_response_task) : rpc_response_task :=
  { t with refs := t.refs + 1 }

/-- Modelled from the spec: `release_ref` of a task (declared outside `src/`);
the task is destroyed when its count reaches zero. -/
def rpc_response_task.release_ref (t : rpc_response_task) : rpc_response_task :=
  { t with refs := t.refs - 1 }

/-- The task when `rtask->wait()` returns in `dsn_rpc_call_wait`. -/
def waited_task (env : rpc_env) (server : dsn_address_t) (request : message_ex) :
    rpc_response_task :=
  env.call_wait { request with server_address := server }
    (env.new_task { request with server_address := server }).add_ref

/-- The function `dsn_rpc_call_wait`. In the branch of `ERR_OK` the response is
dereferenced (`msg->add_ref()`), which is an error for a null pointer. -/
def dsn_rpc_call_wait (env : rpc_env) (server : dsn_address_t) (request : message_ex) :
    Except String call_wait_result :=
  let msg : message_ex := { request with server_address := server }
  let rtask := env.new_task msg
  let rtask := rtask.add_ref
  let rtask := env.call_wait msg rtask
  if rtask.error = ERR_OK then
    match rtask.response with
    | none => Except.error "null response dereferenced"
    | some resp =>
        let resp := resp.add_ref
        let rtask := { rtask with response := some resp }
        let rtask := rtask.release_ref
        Except.ok ⟨some resp, rtask, msg,
          [rpc_event.rtask_add_ref, rpc_event.rpc_call, rpc_event.rtask_wait,
           rpc_event.msg_add_ref, rpc_event.rtask_release_ref]⟩
  else
    let rtask := rtask.release_ref
    Except.ok ⟨none, rtask, msg,
      [rpc_event.rtask_add_ref, rpc_event.rpc_call, rpc_event.rtask_wait,
       rpc_event.rtask_release_ref]⟩

/-- An RPC engine that answers every call with the given error and response. -/
def fixed_env (error : Int) (response : Option message_ex) : rpc_env where
  new_task := fun msg => { request := msg, response := none, error := 0, refs := 0 }
  call_wait := fun _ t => { t with error := error, response := response }

/-! ## `service_api_c.cpp`: task codes -/

/-- The assignment through a pointer `sp` returned by `task_spec::get(code)`:
the first specification stored for the code is changed by `f`. -/
def store_modify (f : task_spec → task_spec) (code : Int) :
    List (Int × task_spec) → List (Int × task_spec)
  | [] => []
  | e :: rest =>
      if e.1 == code then (e.1, f e.2) :: rest else e :: store_modify f code rest

/-- The function `dsn_task_code_query`: the kind, priority and pool it stores
through `ptype`, `ppri` and `ppool` (each when the pointer is not null). -/
def dsn_task_code_query (g : globals) (code : Int) : Except assertion_failure task_spec :=
  match task_spec.get g code with
  | none => Except.error ⟨""⟩
  | some sp => Except.ok sp

/-- The function `dsn_task_code_set_threadpool`. -/
def dsn_task_code_set_threadpool (g : globals) (code : Int) (pool : Int) :
    Except assertion_failure globals :=
  match task_spec.get g code with
  | none => Except.error ⟨""⟩
  | some _ =>
      Except.ok
        { g with
          task_spec_store :=
            store_modify (fun sp => { sp with pool_code := pool }) code g.task_spec_store }

/-- The function `dsn_task_code_set_priority`. -/
def dsn_task_code_set_priority (g : globals) (code : Int) (pri : Int) :
    Except assertion_failure globals :=
  match task_spec.get g code with
  | none => Except.error ⟨""⟩
  | some _ =>
      Except.ok
        { g with
          task_spec_store :=
            store_modify (fun sp => { sp with priority := pri }) code g.task_spec_store }

/-- The function `dsn_task_code_to_string` (`none` where the registry has no
name for the code). -/
def dsn_task_code_to_string (g : globals) (code : Int) : Option String :=
  g.task_codes.get_name code

/-- The function `dsn_task_code_from_string`. -/
def dsn_task_code_from_string (g : globals) (s : String) (default_code : Int) : Int :=
  if g.task_codes.get_id s = -1 then default_code else g.task_codes.get_id s

/-- A call of one of the functions of the API that register codes or read and
write the attributes of task codes. -/
inductive api_call where
  | error_register (name : String)
  | threadpool_code_register (name : String)
  | task_code_register (name : String) (type pri pool : Int)
  | task_code_set_threadpool (code : Int) (pool : Int)
  | task_code_set_priority (code : Int) (pri : Int)
  | task_code_query (code : Int)
deriving DecidableEq, Repr

/-- The state after a call; a failed assertion aborts the process. -/
def api_call.apply (g : globals) : api_call → Except assertion_failure globals
  | api_call.error_register name => Except.ok (dsn_error_register g name).2
  | api_call.threadpool_code_register name =>
      (dsn_threadpool_code_register g name).map (fun r => r.2)
  | api_call.task_code_register name type pri pool =>
      (dsn_task_code_register g name type pri pool).map (fun r => r.2)
  | api_call.task_code_set_threadpool code pool => dsn_task_code_set_threadpool g code pool
  | api_call.task_code_set_priority code pri => dsn_task_code_set_priority g code pri
  | api_call.task_code_query code => (dsn_task_code_query g code).map (fun _ => g)

/-- The state after a sequence of calls. -/
def api_calls : globals → List api_call → Except assertion_failure globals
  | g, [] => Except.ok g
  | g, c :: rest =>
      match c.apply g with
      | Except.error e => Except.error e
      | Except.ok g1 => api_calls g1 rest

/-- A process that has registered the task code `RPC_TEST` (kind 1, priority
1, pool 0) and has then completed its configuration in `run()`. -/
def globals.configured : globals :=
  match dsn_task_code_register globals.initial "RPC_TEST" 1 1 0 with
  | Except.ok r => (run_config r.2 (some [("core", ["tool", "pause_on_start"])]) true).2
  | Except.error _ => globals.initial

/-- A process that has registered the task codes `RPC_A` and `RPC_B` and has
not yet called `run()`. -/
def globals.two_task_codes : globals :=
  match api_calls globals.initial [api_call.task_code_register "RPC_A" 1 1 0,
      api_call.task_code_register "RPC_B" 0 2 0] with
  | Except.ok g => g
  | Except.error _ => globals.initial

/-- The process `globals.two_task_codes` after a call of `dsn_run_config` in
which the configuration loads and `spec.init()` fails, so that `run()` returns
`false` there. -/
def globals.failed_run : globals :=
  (run_config globals.two_task_codes (some []) false).2

/-- The process `globals.failed_run` after it has registered a third task code,
`RPC_C`, which it may, the configuration not being completed. -/
def globals.late_registered : globals :=
  match dsn_task_code_register globals.failed_run "RPC_C" 1 1 0 with
  | Except.ok r => r.2
  | Except.error _ => globals.failed_run

/-! ## `service_api_c.cpp`: RPC calls, file operations, remote copy -/

/-- The kind `TASK_TYPE_RPC_RESPONSE` of `dsn_task_type_t` (declared outside
`src/`; the kinds are told apart by their values only). -/
def TASK_TYPE_RPC_RESPONSE : Int := 1

/-- The kind of an asynchronous file operation, `AIO_Read` or `AIO_Write`. -/
inductive aio_type where
  | AIO_Read
  | AIO_Write
deriving DecidableEq, Repr

/-- The request fields of an AIO task (`aio()`); pointers and handles are
numbers, `engine` is `none` for `nullptr`. -/
structure disk_aio where
  buffer : Nat
  buffer_size : Int
  engine : Option Nat
  file : Nat
  file_offset : Nat
  type : aio_type
deriving DecidableEq, Repr

/-- An AIO task (`aio_task`): its tracker and its request fields. -/
structure aio_task where
  tracker : Option Nat
  aio : disk_aio
deriving DecidableEq, Repr

/-- The request `remote_copy_request`. -/
structure remote_copy_request where
  source : dsn_address_t
  source_dir : String
  files : List String
  dest_dir : String
  overwrite : Bool
deriving DecidableEq, Repr

/-- What the functions below hand to their collaborators: the RPC engine
(`call`, `reply`), the message functions (`dsn_msg_create_response`,
`marshall`), the disk engine (`read`, `write`) and the NFS service (`call`). -/
inductive engine_event where
  | rpc_call (msg : message_ex) (task : Option rpc_response_task)
  | msg_create_response (request : message_ex)
  | marshall (msg : message_ex) (addr : dsn_address_t)
  | rpc_reply (msg : message_ex) (err : Int)
  | disk_read (task : aio_task)
  | disk_write (task : aio_task)
  | nfs_call (rci : remote_copy_request) (task : aio_task)
deriving DecidableEq, Repr

/-- The function `dsn_rpc_call`: the task after the call and what was handed to
the RPC engine. -/
def dsn_rpc_call (server : dsn_address_t) (rpc_call : rpc_response_task)
    (tracker : Option Nat) : Except assertion_failure (rpc_response_task × List engine_event) :=
  if rpc_call.spec.type = TASK_TYPE_RPC_RESPONSE then
    let task := { rpc_call with tracker := tracker }
    let msg := { task.request with server_address := server }
    let task := { task with request := msg }
    Except.ok (task, [engine_event.rpc_call msg (some task)])
  else
    Except.error ⟨""⟩

/-- The function `dsn_rpc_forward`; `create_response` is
`dsn_msg_create_response`, and the error `ERR_FORWARD_TO_OTHERS` (defined
outside `src/`) is a parameter. -/
def dsn_rpc_forward (create_response : message_ex → message_ex) (ERR_FORWARD_TO_OTHERS : Int)
    (request : message_ex) (addr : dsn_address_t) : List engine_event :=
  let resp := create_response request
  [engine_event.msg_create_response request, engine_event.marshall resp addr,
   engine_event.rpc_reply resp ERR_FORWARD_TO_OTHERS]

/-- The function `dsn_file_read`: the task `cb` after the call and what was
handed to the disk engine. -/
def dsn_file_read (file : Nat) (buffer : Nat) (count : Int) (offset : Nat) (cb : aio_task)
    (tracker : Option Nat) : aio_task × List engine_event :=
  let callback := { cb with tracker := tracker }
  let callback := { callback with aio := { callback.aio with buffer := buffer } }
  let callback := { callback with aio := { callback.aio with buffer_size := count } }
  let callback := { callback with aio := { callback.aio with engine := none } }
  let callback := { callback with aio := { callback.aio with file := file } }
  let callback := { callback with aio := { callback.aio with file_offset := offset } }
  let callback := { callback with aio := { callback.aio with type := aio_type.AIO_Read } }
  (callback, [engine_event.disk_read callback])

/-- The function `dsn_file_write`. -/
def dsn_file_write (file : Nat) (buffer : Nat) (count : Int) (offset : Nat) (cb : aio_task)
    (tracker : Option Nat) : aio_task × List engine_event :=
  let callback := { cb with tracker := tracker }
  let callback := { callback with aio := { callback.aio with buffer := buffer } }
  let callback := { callback with aio := { callback.aio with buffer_size := count } }
  let callback := { callback with aio := { callback.aio with engine := none } }
  let callback := { callback with aio := { callback.aio with file := file } }
  let callback := { callback with aio := { callback.aio with file_offset := offset } }
  let callback := { callback with aio := { callback.aio with type := aio_type.AIO_Write } }
  (callback, [engine_event.disk_write callback])

/-- The request made by `new remote_copy_request()`. -/
def remote_copy_request.new : remote_copy_request :=
  { source := ⟨0, 0⟩, source_dir := "", files := [], dest_dir := "", overwrite := false }

/-- The function `dsn_file_copy_remote_directory`. -/
def dsn_file_copy_remote_directory (remote : dsn_address_t) (source_dir dest_dir : String)
    (overwrite : Bool) (cb : aio_task) (tracker : Option Nat) : aio_task × List engine_event :=
  let rci := remote_copy_request.new
  let rci := { rci with source := remote }
  let rci := { rci with source_dir := source_dir }
  let rci := { rci with files := [] }
  let rci := { rci with dest_dir := dest_dir }
  let rci := { rci with overwrite := overwrite }
  let callback := { cb with tracker := tracker }
  (callback, [engine_event.nfs_call rci callback])

/-- The loop `while (*p != nullptr && **p != '\0') { files.push_back(*p); p++; }`
over the array `source_files`, whose entries are pointers to strings (`none`
is `nullptr`); `none` when the loop reads past the end of the array. -/
def push_source_files : List (Option String) → List String → Option (List String)
  | [], _ => none
  | none :: _, files => some files
  | some name :: rest, files =>
      if name = "" then some files else push_source_files rest (files ++ [name])

/-- The function `dsn_file_copy_remote_files`. -/
def dsn_file_copy_remote_files (remote : dsn_address_t) (source_dir : String)
    (source_files : List (Option String)) (dest_dir : String) (overwrite : Bool)
    (cb : aio_task) (tracker : Option Nat) : Option (aio_task × List engine_event) :=
  let rci := remote_copy_request.new
  let rci := { rci with source := remote }
  let rci := { rci with source_dir := source_dir }
  let rci := { rci with files := [] }
  match push_source_files source_files rci.files with
  | none => none
  | some files =>
      let rci := { rci with files := files }
      let rci := { rci with dest_dir := dest_dir }
      let rci := { rci with overwrite := overwrite }
      let callback := { cb with tracker := tracker }
      some (callback, [engine_event.nfs_call rci callback])

/-! ## `service_api_c.cpp`: configuration keys -/

/-- Modelled from the spec: `configuration::get_all_keys(section, keys)`
(declared outside `src/`): the keys of the section, in the order in which the
configuration lists them; no key for a section it does not have. -/
def configuration_get_all_keys (config : List (String × List String)) (sect : String) :
    List String :=
  match config.find? (fun e => e.1 == sect) with
  | some e => e.2
  | none => []

/-- The loop `for (int i = 0; i < *buffer_count; i++) buffers[i] = keys[i];`
with `n` iterations left at index `i`; `none` when an index is outside `keys`
or outside the array `buffers`. -/
def copy_keys (keys : List String) : Nat → Nat → List String → Option (List String)
  | 0, _, buffers => some buffers
  | n + 1, i, buffers =>
      match keys[i]? with
      | none => none
      | some key =>
          if i < buffers.length then copy_keys keys n (i + 1) (buffers.set i key) else none

/-- The function `dsn_config_get_all_keys`, for the array `buffers` and the
value `buffer_count` that `*buffer_count` has at the call: the value returned,
the array and `*buffer_count` afterwards. -/
def dsn_config_get_all_keys (g : globals) (sect : String) (buffers : List String)
    (buffer_count : Int) : Option (Int × List String × Int) :=
  let keys := configuration_get_all_keys g.dsn_all.config sect
  let kcount := to_int keys.length
  let buffer_count := if buffer_count > kcount then kcount else buffer_count
  match copy_keys keys buffer_count.toNat 0 buffers with
  | none => none
  | some buffers1 => some (kcount, buffers1, buffer_count)

/-! ## `service_api_c.cpp`: `dsn_run` and the start of the apps in `run()` -/

/-- The local variables `config_args`, `app_name` and `app_index` of `dsn_run`. -/
structure run_options where
  config_args : String
  app_name : String
  app_index : Int
deriving DecidableEq, Repr

/-- The loop `for (int i = 2; i < argc;)` of `dsn_run` over the arguments from
`argv[i]` on; `none` where it calls `exit(1)`. The function `atoi` of the C
library is a parameter. -/
def parse_run_options (atoi : String → Int) : List String → run_options → Option run_options
  | [], o => some o
  | a :: rest, o =>
      if a = "-cargs" then
        match rest with
        | [] => some o
        | v :: rest1 => parse_run_options atoi rest1 { o with config_args := v }
      else if a = "-app" then
        match rest with
        | [] => some o
        | v :: rest1 => parse_run_options atoi rest1 { o with app_name := v }
      else if a = "-app_index" then
        match rest with
        | [] => some o
        | v :: rest1 => parse_run_options atoi rest1 { o with app_index := atoi v }
      else none

/-- The arguments of a call of `run()`; `config_arguments` is `none` for
`nullptr`. -/
structure run_call where
  config_file : String
  config_arguments : Option String
  sleep_after_init : Bool
  app_name : String
  app_index : Int
deriving DecidableEq, Repr

/-- How `dsn_run` goes on: it calls `exit`, or it calls `run()`. -/
inductive dsn_run_outcome where
  | exit (status : Int)
  | run (call : run_call)
deriving DecidableEq, Repr

/-- The function `dsn_run`, for `argc` arguments `argv`. -/
def dsn_run (atoi : String → Int) (argv : List String) (sleep_after_init : Bool) :
    dsn_run_outcome :=
  match argv with
  | [] => dsn_run_outcome.exit 1
  | [_] => dsn_run_outcome.exit 1
  | _ :: config :: rest =>
      match parse_run_options atoi rest ⟨"", "", -1⟩ with
      | none => dsn_run_outcome.exit 1
      | some o =>
          dsn_run_outcome.run
            ⟨config, if o.config_args.length > 0 then some o.config_args else none,
             sleep_after_init, o.app_name, o.app_index⟩

/-- An option of the command line of `dsn_run`. -/
inductive run_option where
  | cargs
  | app
  | app_index
deriving DecidableEq, Repr

/-- The argument that names an option. -/
def run_option.flag : run_option → String
  | run_option.cargs => "-cargs"
  | run_option.app => "-app"
  | run_option.app_index => "-app_index"

/-- The assignment that the loop of `dsn_run` makes for an option with its
value. -/
def run_options.set (atoi : String → Int) (o : run_options) (p : run_option × String) :
    run_options :=
  match p.1 with
  | run_option.cargs => { o with config_args := p.2 }
  | run_option.app => { o with app_name := p.2 }
  | run_option.app_index => { o with app_index := atoi p.2 }

/-- The arguments that give the options `opts` with their values. -/
def option_args : List (run_option × String) → List String
  | [] => []
  | (o, v) :: rest => o.flag :: v :: option_args rest

/-- The value that follows the last occurrence of the option `o` among
`opts`. -/
def last_value (o : run_option) (opts : List (run_option × String)) : Option String :=
  (opts.reverse.find? (fun p => p.1 == o)).map (fun p => p.2)

/-- The arguments of `run()` for the options `opts`: for each option the value
that follows its last occurrence, and the default for an option that is
absent. -/
def run_call_of (atoi : String → Int) (config : String) (sleep_after_init : Bool)
    (opts : List (run_option × String)) : run_call :=
  { config_file := config
    config_arguments :=
      match last_value run_option.cargs opts with
      | none => none
      | some v => if v.length > 0 then some v else none
    sleep_after_init := sleep_after_init
    app_name := (last_value run_option.app opts).getD ""
    app_index := ((last_value run_option.app_index opts).map atoi).getD (-1) }

/-- An app specification (`service_app_spec`), as far as this file reads it. -/
structure service_app_spec where
  name : String
  config_section : String
  index : Int
  run : Bool
  type : String := ""
deriving DecidableEq, Repr

/-- The loop `for (auto& sp : spec.app_specs)` of `run()`: the specifications
handed to `start_node`, in the order of the calls, added to `started`. -/
def start_apps (app_name : String) (app_index : Int) :
    List service_app_spec → List service_app_spec → List service_app_spec
  | [], started => started
  | sp :: rest, started =>
      if !sp.run then start_apps app_name app_index rest started
      else
        let create_it : Bool :=
          if app_name = "" then true
          else if "apps." ++ app_name = sp.config_section then
            (if app_index = -1 then true else decide (app_index = sp.index))
          else false
        if create_it then start_apps app_name app_index rest (started ++ [sp])
        else start_apps app_name app_index rest started

/-- The condition of the claim for an app specification to be started. -/
def is_started (app_name : String) (app_index : Int) (sp : service_app_spec) : Bool :=
  sp.run && (decide (app_name = "") ||
    (decide (sp.config_section = "apps." ++ app_name) && decide (app_index = -1)) ||
    (decide (sp.config_section = "apps." ++ app_name) && decide (app_index = sp.index)))

/-! ## `service_api_c.cpp`: the apps of the process -/

/-- A started app (`service_node`): its id, the pointer to its app context and
its specification. -/
structure service_node where
  id : Int
  app_context_ptr : Nat
  spec : service_app_spec
deriving DecidableEq, Repr

/-- An entry of the buffer of `dsn_get_all_apps` (`dsn_app_info`); `name` and
`type` are the bytes that the two arrays of `char` hold, each as a value from
0 to 255. -/
structure dsn_app_info where
  app_context_ptr : Nat
  app_id : Int
  name : List Nat
  type : List Nat
deriving DecidableEq, Repr

/-- The C string `s.c_str()` as `strncpy` reads it: the bytes of the string, a
`std::string` holding the UTF-8 encoding of `s`, up to the first zero byte. -/
def c_str (s : String) : List Nat :=
  (s.toUTF8.data.toList.map (fun b => b.toNat)).takeWhile (fun b => b != 0)

/-- The array `dest` of `n` bytes after `strncpy(dest, src, n)`: the first `n`
bytes of `src`, followed by zero bytes up to `n` when `src` has fewer; there is
no zero byte at the end when `src` has `n` bytes or more. -/
def strncpy (src : List Nat) (n : Nat) : List Nat := (src ++ List.replicate n 0).take n

/-- The loop `for (auto& kv : as)` of `dsn_get_all_apps` with its two `return`
statements, at index `i`, for the nodes still to visit; `size` is `as.size()`,
and `name_size`, `type_size` are `sizeof(info.name)`, `sizeof(info.type)`
(declared outside `src/`). The result is the value returned and the buffer;
`none` when an index is outside the array `info_buffer`. -/
def get_all_apps_loop (size name_size type_size : Nat) (count : Int) :
    List (Int × service_node) → Int → List dsn_app_info → Option (Int × List dsn_app_info)
  | [], i, info_buffer => some (i + 1, info_buffer)
  | kv :: rest, i, info_buffer =>
      if i ≥ count then some (to_int size, info_buffer)
      else if i.toNat < info_buffer.length then
        get_all_apps_loop size name_size type_size count rest (i + 1)
          (info_buffer.set i.toNat
            ⟨kv.2.app_context_ptr, kv.2.id, strncpy (c_str kv.2.spec.name) name_size,
             strncpy (c_str kv.2.spec.type) type_size⟩)
      else none

/-- The function `dsn_get_all_apps`; `nodes` is what `get_all_nodes()` gives,
the started apps in the order of the map. -/
def dsn_get_all_apps (name_size type_size : Nat) (nodes : List (Int × service_node))
    (info_buffer : List dsn_app_info) (count : Int) : Option (Int × List dsn_app_info) :=
  get_all_apps_loop nodes.length name_size type_size count nodes 0 info_buffer

/-- The thread-local context that `dsn_mimic_app` reads and writes: the worker
of the thread and the node the thread is attached to (`none` is `nullptr`). -/
structure tls_dsn_context where
  worker : Option Nat
  node : Option service_node
deriving DecidableEq, Repr

/-- The string `name.substr(0, n)`. -/
def substr0 (name : String) (n : Nat) : String := ⟨name.data.take n⟩

/-- The condition that `dsn_mimic_app` tests, on the node of the thread and on
the nodes of the engine: `name == app_name ||
(name.substr(0, strlen(app_name)) == app_name && spec().index == index)`. -/
def mimic_matches (app_name : String) (index : Int) (n : service_node) : Bool :=
  n.spec.name == app_name ||
    (substr0 n.spec.name app_name.length == app_name && n.spec.index == index)

/-- The loop `for (auto& n : nodes)` of `dsn_mimic_app`: the first node that
matches, if there is one. -/
def mimic_find (app_name : String) (index : Int) :
    List (Int × service_node) → Option service_node
  | [] => none
  | n :: rest =>
      if mimic_matches app_name index n.2 then some n.2 else mimic_find app_name index rest

/-- The function `dsn_mimic_app`: the value returned and the thread-local
context afterwards. -/
def dsn_mimic_app (nodes : List (Int × service_node)) (tls : tls_dsn_context)
    (app_name : String) (index : Int) : Except assertion_failure (Bool × tls_dsn_context) :=
  match tls.worker with
  | some _ => Except.error ⟨"cannot call dsn_mimic_app in rDSN threads"⟩
  | none =>
      match tls.node with
      | some cnode =>
          if mimic_matches app_name index cnode then Except.ok (true, tls)
          else Except.ok (false, tls)
      | none =>
          match mimic_find app_name index nodes with
          | some n => Except.ok (true, { worker := none, node := some n })
          | none => Except.ok (false, tls)

/-- The longest prefix of the array `source_files` that precedes its first null
pointer or empty string, as a list of names. -/
def names_before_terminator (source_files : List (Option String)) : List String :=
  (source_files.takeWhile (fun e => e.isSome && e != some "")).filterMap id

/-- The condition of the claim on a node: its name equals `app_name`, or its
name starts with `app_name` and its index equals `index`. -/
def names_app (app_name : String) (index : Int) (n : service_node) : Prop :=
  n.spec.name = app_name ∨
    ((∃ rest : String, n.spec.name = app_name ++ rest) ∧ n.spec.index = index)

/-- A node of the app `replica` with index 1. -/
def node_replica1 : service_node :=
  ⟨1, 100, { name := "replica1", config_section := "apps.replica", index := 1, run := true,
             type := "replica" }⟩

/-- A node of the app `replica` with index 2. -/
def node_replica2 : service_node :=
  ⟨2, 200, { name := "replica2", config_section := "apps.replica", index := 2, run := true,
             type := "replica" }⟩

/-! # Theorems -/

namespace tools

variable {σ : Type}

/-! ## Field lemmas -/

@[simp] theorem emit_trace (s : net_io σ) (evs : List Event) :
    (s.emit evs).trace = s.trace ++ evs := rfl

@[simp] theorem do_read_counter (P : message_parser_if σ) (s : net_io σ) (sz : Nat) :
    (do_read P s sz).counter = s.counter + 1 := rfl

@[simp] theorem do_read_writes (P : message_parser_if σ) (s : net_io σ) (sz : Nat) :
    (do_read P s sz).writes = s.writes := rfl

@[simp] theorem do_read_reads (P : message_parser_if σ) (s : net_io σ) (sz : Nat) :
    (do_read P s sz).reads = s.reads ++
      [⟨(P.read_buffer_ptr s.parser (to_int sz)).1,
        to_size_t (P.read_buffer_capacity (P.read_buffer_ptr s.parser (to_int sz)).2).1⟩] := rfl

@[simp] theorem do_read_trace (P : message_parser_if σ) (s : net_io σ) (sz : Nat) :
    (do_read P s sz).trace = s.trace ++
      [Event.add_reference, Event.read_buffer_ptr (to_int sz), Event.read_buffer_capacity,
       Event.async_read_some (P.read_buffer_ptr s.parser (to_int sz)).1
         (to_size_t (P.read_buffer_capacity (P.read_buffer_ptr s.parser (to_int sz)).2).1)] := by
  simp [do_read, add_reference]

@[simp] theorem write_counter (P : message_parser_if σ) (s : net_io σ) (msg : message_ex) :
    (write P s msg).counter = s.counter + 1 := rfl

@[simp] theorem write_reads (P : message_parser_if σ) (s : net_io σ) (msg : message_ex) :
    (write P s msg).reads = s.reads := rfl

@[simp] theorem write_writes_length (P : message_parser_if σ) (s : net_io σ) (msg : message_ex) :
    (write P s msg).writes.length = s.writes.length + 1 := by
  simp [write, add_reference]

@[simp] theorem release_reference_counter (s : net_io σ) :
    (release_reference s).counter = s.counter - 1 := rfl

@[simp] theorem release_reference_reads (s : net_io σ) :
    (release_reference s).reads = s.reads := rfl

@[simp] theorem release_reference_writes (s : net_io σ) :
    (release_reference s).writes = s.writes := rfl

@[simp] theorem release_reference_trace (s : net_io σ) :
    (release_reference s).trace = s.trace ++ [Event.release_reference] := rfl

@[simp] theorem release_reference_keeps_parser_state (s : net_io σ) :
    (release_reference s).parser = s.parser := rfl

/-! ## The extraction loop -/

/-- An event that changes neither the reference count nor the outstanding
operations. -/
theorem loop_events_neutral (msgs : List message_ex) :
    ∀ e ∈ loop_events msgs, e.ref_delta = 0 ∧ e.op_delta = 0 := by
  intro e he
  simp only [loop_events, List.mem_flatMap] at he
  obtain ⟨m, _, hm⟩ := he
  simp at hm
  rcases hm with rfl | rfl <;> exact ⟨rfl, rfl⟩

/-- When the loop ends, it has handed over some messages `msgs`, and changed
only the parser state and the trace. -/
theorem read_loop_some (P : message_parser_if σ) :
    ∀ (fuel : Nat) (s : net_io σ) (m : Option message_ex) (rn : Int) (s2 : net_io σ) (rn2 : Int),
      read_loop P fuel s m rn = some (s2, rn2) →
      s2.counter = s.counter ∧ s2.reads = s.reads ∧ s2.writes = s.writes ∧
      ∃ evs, s2.trace = s.trace ++ evs ∧ ∀ e ∈ evs, e.ref_delta = 0 ∧ e.op_delta = 0 := by
  intro fuel
  induction fuel with
  | zero =>
      intro s m rn s2 rn2 h
      cases m with
      | none =>
          simp only [read_loop, Option.some.injEq, Prod.mk.injEq] at h
          obtain ⟨rfl, _⟩ := h
          exact ⟨rfl, rfl, rfl, [], by simp, by simp⟩
      | some msg => simp [read_loop] at h
  | succ fuel ih =>
      intro s m rn s2 rn2 h
      cases m with
      | none =>
          simp only [read_loop, Option.some.injEq, Prod.mk.injEq] at h
          obtain ⟨rfl, _⟩ := h
          exact ⟨rfl, rfl, rfl, [], by simp, by simp⟩
      | some msg =>
          simp only [read_loop] at h
          obtain ⟨hc, hr, hw, evs, ht, hn⟩ := ih _ _ _ _ _ h
          refine ⟨hc, hr, hw,
            [Event.on_message_read msg, Event.get_message_on_receive 0] ++ evs, ?_, ?_⟩
          · rw [ht]; simp [parser_get_message, on_message_read]
          · intro e he
            simp only [List.mem_append, List.mem_cons, List.mem_singleton] at he
            rcases he with (rfl | rfl | he) | he
            · exact ⟨rfl, rfl⟩
            · exact ⟨rfl, rfl⟩
            · simp at he
            · exact hn e he

/-! ## Reference count against outstanding operations -/

theorem refs_cover_ops_head (r o : Int) (evs : List Event) (h : refs_cover_ops r o evs) :
    o ≤ r := by
  cases evs with
  | nil => exact h
  | cons e es => exact h.1

theorem ref_sum_append (xs ys : List Event) : ref_sum (xs ++ ys) = ref_sum xs + ref_sum ys := by
  simp [ref_sum]

theorem op_sum_append (xs ys : List Event) : op_sum (xs ++ ys) = op_sum xs + op_sum ys := by
  simp [op_sum]

theorem refs_cover_ops_append (xs : List Event) :
    ∀ (r o : Int) (ys : List Event),
      refs_cover_ops r o (xs ++ ys) ↔
        refs_cover_ops r o xs ∧ refs_cover_ops (r + ref_sum xs) (o + op_sum xs) ys := by
  induction xs with
  | nil =>
      intro r o ys
      simp only [List.nil_append, refs_cover_ops, ref_sum, op_sum, List.map_nil, List.sum_nil,
        add_zero]
      constructor
      · intro h; exact ⟨refs_cover_ops_head _ _ _ h, h⟩
      · intro h; exact h.2
  | cons e es ih =>
      intro r o ys
      have h := ih (r + e.ref_delta) (o + e.op_delta) ys
      simp only [ref_sum, op_sum] at h
      show (o ≤ r ∧ refs_cover_ops (r + e.ref_delta) (o + e.op_delta) (es ++ ys)) ↔ _
      rw [h]
      simp only [refs_cover_ops, ref_sum, op_sum, List.map_cons, List.sum_cons, ← add_assoc,
        and_assoc]

theorem refs_cover_ops_end (evs : List Event) :
    ∀ (r o : Int), refs_cover_ops r o evs → o + op_sum evs ≤ r + ref_sum evs := by
  induction evs with
  | nil => intro r o h; simpa [refs_cover_ops, ref_sum, op_sum] using h
  | cons e es ih =>
      intro r o h
      have := ih _ _ h.2
      simp only [ref_sum, op_sum, List.map_cons, List.sum_cons] at this ⊢
      omega

theorem neutral_sums (evs : List Event) (h : ∀ e ∈ evs, e.ref_delta = 0 ∧ e.op_delta = 0) :
    ref_sum evs = 0 ∧ op_sum evs = 0 := by
  induction evs with
  | nil => simp [ref_sum, op_sum]
  | cons e es ih =>
      have h1 := h e (List.mem_cons_self _ _)
      have h2 := ih (fun x hx => h x (List.mem_cons_of_mem _ hx))
      simp only [ref_sum, op_sum, List.map_cons, List.sum_cons] at h2 ⊢
      omega

theorem neutral_cover (evs : List Event) (h : ∀ e ∈ evs, e.ref_delta = 0 ∧ e.op_delta = 0)
    (r o : Int) (hro : o ≤ r) : refs_cover_ops r o evs := by
  induction evs with
  | nil => exact hro
  | cons e es ih =>
      have h1 := h e (List.mem_cons_self _ _)
      refine ⟨hro, ?_⟩
      rw [h1.1, h1.2, add_zero, add_zero]
      exact ih (fun x hx => h x (List.mem_cons_of_mem _ hx))

theorem outstanding_erase_read (s : net_io σ) (i : Nat) (op : const_buffer)
    (h : s.reads[i]? = some op) (t : List Event) :
    outstanding { s with reads := s.reads.eraseIdx i, trace := t } = outstanding s - 1 := by
  have hi : i < s.reads.length := by
    rcases List.getElem?_eq_some_iff.mp h with ⟨hi, _⟩
    exact hi
  simp only [outstanding, List.length_eraseIdx_of_lt hi]
  omega

theorem outstanding_erase_write (s : net_io σ) (i : Nat) (op : write_op)
    (h : s.writes[i]? = some op) (t : List Event) :
    outstanding { s with writes := s.writes.eraseIdx i, trace := t } = outstanding s - 1 := by
  have hi : i < s.writes.length := by
    rcases List.getElem?_eq_some_iff.mp h with ⟨hi, _⟩
    exact hi
  simp only [outstanding, List.length_eraseIdx_of_lt hi]
  omega

@[simp] theorem write_trace (P : message_parser_if σ) (s : net_io σ) (msg : message_ex) :
    (write P s msg).trace = s.trace ++
      [Event.get_send_buffers_count_and_total_length msg, Event.prepare_buffers_on_send msg 0,
       Event.add_reference,
       Event.async_write (make_buffers2
         (P.prepare_buffers_on_send
            (P.get_send_buffers_count_and_total_length s.parser msg).2 msg 0).1.1
         (P.prepare_buffers_on_send
            (P.get_send_buffers_count_and_total_length s.parser msg).2 msg 0).1.2)] := by
  simp [write, add_reference]

/-- The effect of the read handler, which runs while the reference of the
finished read is still held: the events it adds account for the change of the
reference count and of the outstanding operations, and the count covers the
outstanding operations at every point. -/
theorem do_read_handler_effect (P : message_parser_if σ) (fuel : Nat) (s s1 : net_io σ)
    (ec : Int) (length : Nat) (h : do_read_handler P fuel s ec length = some s1) :
    ∃ evs, s1.trace = s.trace ++ evs ∧ s1.counter = s.counter + ref_sum evs ∧
      outstanding s1 = outstanding s + op_sum evs ∧
      (outstanding s + 1 ≤ s.counter → refs_cover_ops s.counter (outstanding s) evs) := by
  unfold do_read_handler at h
  by_cases hec : ec ≠ 0
  · rw [if_pos hec] at h
    simp only [Option.some.injEq] at h
    subst h
    refine ⟨[Event.on_failure, Event.release_reference], ?_, ?_, ?_, ?_⟩
    · simp [on_failure]
    · simp [on_failure, net_io.emit, ref_sum, Event.ref_delta]; omega
    · simp [on_failure, net_io.emit, op_sum, Event.op_delta, outstanding]
    · intro hro
      simp only [refs_cover_ops, Event.ref_delta, Event.op_delta]
      omega
  · rw [if_neg hec] at h
    simp only at h
    split at h
    · exact absurd h (by simp)
    · rename_i s2 read_next hloop
      simp only [Option.some.injEq] at h
      subst h
      obtain ⟨hc, hr, hw, evs, ht, hn⟩ := read_loop_some P _ _ _ _ _ _ hloop
      have hn2 : ∀ e ∈ Event.get_message_on_receive (to_int length) :: evs,
          e.ref_delta = 0 ∧ e.op_delta = 0 := by
        intro e he
        rcases List.mem_cons.mp he with rfl | he
        · exact ⟨rfl, rfl⟩
        · exact hn e he
      obtain ⟨hs1, hs2⟩ := neutral_sums _ hn2
      have ho2 : outstanding s2 = outstanding s := by
        simp only [outstanding, hr, hw, parser_get_message]
      refine ⟨(Event.get_message_on_receive (to_int length) :: evs) ++
        [Event.add_reference, Event.read_buffer_ptr (to_int (to_size_t read_next)),
         Event.read_buffer_capacity,
         Event.async_read_some (P.read_buffer_ptr s2.parser (to_int (to_size_t read_next))).1
           (to_size_t (P.read_buffer_capacity
             (P.read_buffer_ptr s2.parser (to_int (to_size_t read_next))).2).1),
         Event.release_reference], ?_, ?_, ?_, ?_⟩
      · simp [ht, parser_get_message]
      · rw [ref_sum_append, hs1]
        simp [hc, parser_get_message, ref_sum, Event.ref_delta]
      · rw [op_sum_append, hs2]
        have : outstanding (release_reference (do_read P s2 (to_size_t read_next))) =
            outstanding s2 + 1 := by
          simp [outstanding]; omega
        rw [this, ho2]
        simp [op_sum, Event.op_delta]
      · intro hro
        rw [refs_cover_ops_append, hs1, hs2]
        refine ⟨neutral_cover _ hn2 _ _ (by omega), ?_⟩
        simp only [refs_cover_ops, Event.ref_delta, Event.op_delta]
        omega

/-- The events of one action account for the change of the reference count and
of the outstanding operations, and the count covers the outstanding operations
at every point of the action. -/
theorem step_effect (P : message_parser_if σ) (fuel : Nat) (s s1 : net_io σ) (a : Action)
    (h : step P fuel s a = some s1) :
    ∃ evs, s1.trace = s.trace ++ evs ∧ s1.counter = s.counter + ref_sum evs ∧
      outstanding s1 = outstanding s + op_sum evs ∧
      (outstanding s ≤ s.counter → refs_cover_ops s.counter (outstanding s) evs) := by
  cases a with
  | do_read sz =>
      simp only [step, Option.some.injEq] at h
      subst h
      refine ⟨_, do_read_trace P s sz, ?_, ?_, ?_⟩
      · simp [ref_sum, Event.ref_delta]
      · simp [outstanding, op_sum, Event.op_delta]; omega
      · intro hro
        simp only [refs_cover_ops, Event.ref_delta, Event.op_delta]
        omega
  | write msg =>
      simp only [step, Option.some.injEq] at h
      subst h
      refine ⟨_, write_trace P s msg, ?_, ?_, ?_⟩
      · simp [ref_sum, Event.ref_delta]
      · simp [outstanding, op_sum, Event.op_delta]; omega
      · intro hro
        simp only [refs_cover_ops, Event.ref_delta, Event.op_delta]
        omega
  | read_completes i ec length =>
      simp only [step] at h
      split at h
      · exact absurd h (by simp)
      · rename_i op hop
        obtain ⟨evs, ht, hc, ho, hcov⟩ := do_read_handler_effect P fuel _ _ _ _ h
        rw [outstanding_erase_read s i op hop] at ho hcov
        refine ⟨Event.read_handler ec length :: evs, ?_, ?_, ?_, ?_⟩
        · simp [ht]
        · simp only [hc, ref_sum, List.map_cons, List.sum_cons, Event.ref_delta]; omega
        · simp only [ho, op_sum, List.map_cons, List.sum_cons, Event.op_delta]; omega
        · intro hro
          refine ⟨hro, ?_⟩
          have := hcov (by simp only []; omega)
          simpa [Event.ref_delta, Event.op_delta, sub_eq_add_neg] using this
  | write_completes i ec length =>
      simp only [step] at h
      split at h
      · exact absurd h (by simp)
      · rename_i op hop
        simp only [Option.some.injEq] at h
        subst h
        have ho := outstanding_erase_write s i op hop (s.trace ++ [Event.write_handler ec length])
        by_cases hec : ec ≠ 0
        · refine ⟨[Event.write_handler ec length, Event.on_failure, Event.release_reference],
            ?_, ?_, ?_, ?_⟩
          · simp [write_handler, hec, on_failure]
          · simp [write_handler, hec, on_failure, net_io.emit, ref_sum, Event.ref_delta]; omega
          · have : outstanding (write_handler
                { s with writes := s.writes.eraseIdx i
                         trace := s.trace ++ [Event.write_handler ec length] } op.msg ec length) =
                outstanding { s with writes := s.writes.eraseIdx i
                                     trace := s.trace ++ [Event.write_handler ec length] } := by
              simp [write_handler, hec, on_failure, net_io.emit, outstanding]
            rw [this, ho]
            simp [op_sum, Event.op_delta]; omega
          · intro hro
            simp only [refs_cover_ops, Event.ref_delta, Event.op_delta]
            omega
        · refine ⟨[Event.write_handler ec length, Event.on_write_completed op.msg,
            Event.release_reference], ?_, ?_, ?_, ?_⟩
          · simp [write_handler, hec, on_write_completed]
          · simp [write_handler, hec, on_write_completed, net_io.emit, ref_sum, Event.ref_delta]
            omega
          · have : outstanding (write_handler
                { s with writes := s.writes.eraseIdx i
                         trace := s.trace ++ [Event.write_handler ec length] } op.msg ec length) =
                outstanding { s with writes := s.writes.eraseIdx i
                                     trace := s.trace ++ [Event.write_handler ec length] } := by
              simp [write_handler, hec, on_write_completed, net_io.emit, outstanding]
            rw [this, ho]
            simp [op_sum, Event.op_delta]; omega
          · intro hro
            simp only [refs_cover_ops, Event.ref_delta, Event.op_delta]
            omega

theorem neutral_count_add (evs : List Event)
    (h : ∀ e ∈ evs, e.ref_delta = 0 ∧ e.op_delta = 0) :
    evs.count Event.add_reference = 0 ∧ evs.count Event.release_reference = 0 := by
  constructor
  · rw [List.count_eq_zero]
    intro hm
    have := (h _ hm).1
    simp [Event.ref_delta] at this
  · rw [List.count_eq_zero]
    intro hm
    have := (h _ hm).1
    simp [Event.ref_delta] at this

/-- The trace of the read handler: after an error the failure callback and the
release; after a success neutral events, the events of `do_read`, the release. -/
theorem do_read_handler_trace (P : message_parser_if σ) (fuel : Nat) (s s1 : net_io σ)
    (ec : Int) (length : Nat) (h : do_read_handler P fuel s ec length = some s1) :
    (ec ≠ 0 ∧ s1.trace = s.trace ++ [Event.on_failure, Event.release_reference]) ∨
    (ec = 0 ∧ ∃ (evs : List Event) (sz : Int) (ptr size : Nat),
      (∀ e ∈ evs, e.ref_delta = 0 ∧ e.op_delta = 0) ∧
      s1.trace = s.trace ++ (evs ++ [Event.add_reference, Event.read_buffer_ptr sz,
        Event.read_buffer_capacity, Event.async_read_some ptr size,
        Event.release_reference])) := by
  unfold do_read_handler at h
  by_cases hec : ec ≠ 0
  · rw [if_pos hec] at h
    simp only [Option.some.injEq] at h
    subst h
    exact Or.inl ⟨hec, by simp [on_failure]⟩
  · rw [if_neg hec] at h
    simp only at h
    split at h
    · exact absurd h (by simp)
    · rename_i s2 read_next hloop
      simp only [Option.some.injEq] at h
      subst h
      obtain ⟨_, _, _, evs, ht, hn⟩ := read_loop_some P _ _ _ _ _ _ hloop
      refine Or.inr ⟨by omega, Event.get_message_on_receive (to_int length) :: evs,
        to_int (to_size_t read_next),
        (P.read_buffer_ptr s2.parser (to_int (to_size_t read_next))).1,
        to_size_t (P.read_buffer_capacity
          (P.read_buffer_ptr s2.parser (to_int (to_size_t read_next))).2).1, ?_, ?_⟩
      · intro e he
        rcases List.mem_cons.mp he with rfl | he
        · exact ⟨rfl, rfl⟩
        · exact hn e he
      · simp [ht, parser_get_message]

/-- Every action keeps the discipline of reference operations. -/
theorem step_discipline (P : message_parser_if σ) (fuel : Nat) (s s1 : net_io σ) (a : Action)
    (h : step P fuel s a = some s1) :
    ∃ evs, s1.trace = s.trace ++ evs ∧ ref_discipline a evs := by
  cases a with
  | do_read sz =>
      simp only [step, Option.some.injEq] at h
      subst h
      exact ⟨_, do_read_trace P s sz, by simp [ref_discipline]⟩
  | write msg =>
      simp only [step, Option.some.injEq] at h
      subst h
      exact ⟨_, write_trace P s msg, by simp [ref_discipline]⟩
  | read_completes i ec length =>
      simp only [step] at h
      split at h
      · exact absurd h (by simp)
      · rcases do_read_handler_trace P fuel _ _ _ _ h with ⟨hec, ht⟩ | ⟨hec, evs, sz, ptr, size, hn, ht⟩
        · refine ⟨[Event.read_handler ec length, Event.on_failure, Event.release_reference],
            by simp [ht], ?_⟩
          simp [ref_discipline, hec]
        · refine ⟨Event.read_handler ec length :: (evs ++ [Event.add_reference,
            Event.read_buffer_ptr sz, Event.read_buffer_capacity, Event.async_read_some ptr size,
            Event.release_reference]), by simp [ht], ?_⟩
          obtain ⟨h1, h2⟩ := neutral_count_add evs hn
          have hlast : (Event.read_handler ec length :: (evs ++ [Event.add_reference,
              Event.read_buffer_ptr sz, Event.read_buffer_capacity,
              Event.async_read_some ptr size, Event.release_reference])).getLast? =
              some Event.release_reference := by
            have : Event.read_handler ec length :: (evs ++ [Event.add_reference,
                Event.read_buffer_ptr sz, Event.read_buffer_capacity,
                Event.async_read_some ptr size, Event.release_reference]) =
                (Event.read_handler ec length :: (evs ++ [Event.add_reference,
                Event.read_buffer_ptr sz, Event.read_buffer_capacity,
                Event.async_read_some ptr size])) ++ [Event.release_reference] := by simp
            rw [this, List.getLast?_concat]
          refine ⟨?_, ?_, hlast⟩
          · simp [hec, List.count_cons, List.count_append, h1]
          · simp [List.count_cons, List.count_append, h2]
  | write_completes i ec length =>
      simp only [step] at h
      split at h
      · exact absurd h (by simp)
      · rename_i op hop
        simp only [Option.some.injEq] at h
        subst h
        by_cases hec : ec ≠ 0
        · exact ⟨[Event.write_handler ec length, Event.on_failure, Event.release_reference],
            by simp [write_handler, hec, on_failure], by simp [ref_discipline]⟩
        · exact ⟨[Event.write_handler ec length, Event.on_write_completed op.msg,
            Event.release_reference],
            by simp [write_handler, hec, on_write_completed], by simp [ref_discipline]⟩

/-- The events of a sequence of actions account for the change of the reference
count and of the outstanding operations, and the count covers the outstanding
operations at every point of the sequence. -/
theorem run_effect (P : message_parser_if σ) (fuel : Nat) (acts : List Action) :
    ∀ (s s1 : net_io σ), run_actions P fuel s acts = some s1 → outstanding s ≤ s.counter →
      ∃ evs, s1.trace = s.trace ++ evs ∧ s1.counter = s.counter + ref_sum evs ∧
        outstanding s1 = outstanding s + op_sum evs ∧
        refs_cover_ops s.counter (outstanding s) evs := by
  induction acts with
  | nil =>
      intro s s1 h h0
      simp only [run_actions, Option.some.injEq] at h
      subst h
      exact ⟨[], by simp, by simp [ref_sum], by simp [op_sum], h0⟩
  | cons a rest ih =>
      intro s s1 h h0
      simp only [run_actions] at h
      cases hs : step P fuel s a with
      | none => simp [hs] at h
      | some s2 =>
          rw [hs] at h
          simp only [Option.some_bind] at h
          obtain ⟨e1, ht1, hc1, ho1, hcov1⟩ := step_effect P fuel s s2 a hs
          have hc := hcov1 h0
          have h2 : outstanding s2 ≤ s2.counter := by
            rw [hc1, ho1]; exact refs_cover_ops_end _ _ _ hc
          obtain ⟨e2, ht2, hc2, ho2, hcov2⟩ := ih s2 s1 h h2
          refine ⟨e1 ++ e2, ?_, ?_, ?_, ?_⟩
          · rw [ht2, ht1, List.append_assoc]
          · rw [hc2, hc1, ref_sum_append]; omega
          · rw [ho2, ho1, op_sum_append]; omega
          · rw [refs_cover_ops_append]
            refine ⟨hc, ?_⟩
            rw [← hc1, ← ho1]; exact hcov2

/-! ## C1 -/

/-- C1: for every sequence of initiations and completions of reads and writes on
a session whose reference count covers its outstanding operations at the start,
(1) every action keeps the discipline of references: `do_read` and `write` add
exactly one reference, a completion handler releases exactly one, as its last
event, and a successful read adds the reference of the re-armed read before
that release; (2) the reference count is at least the number of outstanding
asynchronous operations before and after every event of the sequence and in
the state reached, where it is positive while an operation is outstanding. -/
theorem refcount_covers_outstanding (P : message_parser_if σ) (fuel : Nat)
    (s0 s : net_io σ) (acts : List Action)
    (h0 : outstanding s0 ≤ s0.counter) (hrun : run_actions P fuel s0 acts = some s) :
    (∀ (t t1 : net_io σ) (a : Action), step P fuel t a = some t1 →
        ∃ evs, t1.trace = t.trace ++ evs ∧ ref_discipline a evs) ∧
    (∃ evs, s.trace = s0.trace ++ evs ∧
        refs_cover_ops s0.counter (outstanding s0) evs ∧
        s.counter = s0.counter + ref_sum evs ∧
        outstanding s = outstanding s0 + op_sum evs) ∧
    outstanding s ≤ s.counter ∧
    (0 < outstanding s → 0 < s.counter) := by
  obtain ⟨evs, ht, hc, ho, hcov⟩ := run_effect P fuel acts s0 s hrun h0
  have hle : outstanding s ≤ s.counter := by
    rw [hc, ho]; exact refs_cover_ops_end _ _ _ hcov
  exact ⟨fun t t1 a h => step_discipline P fuel t t1 a h, ⟨evs, ht, hcov, hc, ho⟩, hle,
    fun hpos => by omega⟩

/-- C1 at a session with one owner reference, on the four-byte frame parser: a
read is started, a write is issued, the read completes with two frames, the
write completes, and the re-armed read fails. -/
theorem refcount_covers_outstanding_witness :
    ∃ s, run_actions frame4 4 (net_io.fresh 1 0)
        [Action.do_read 4, Action.write ⟨7, ⟨1, 2⟩, 0⟩, Action.read_completes 0 0 8,
         Action.write_completes 0 0 24, Action.read_completes 0 104 0] = some s ∧
      s.counter = 1 ∧ outstanding s = 0 ∧
      ∃ evs, s.trace = evs ∧ refs_cover_ops 1 0 evs := by
  refine ⟨_, rfl, ?_⟩
  have h := refcount_covers_outstanding frame4 4 (net_io.fresh 1 0) _
    [Action.do_read 4, Action.write ⟨7, ⟨1, 2⟩, 0⟩, Action.read_completes 0 0 8,
     Action.write_completes 0 0 24, Action.read_completes 0 104 0] (by decide) rfl
  obtain ⟨_, ⟨evs, ht, hcov, _, _⟩, _, _⟩ := h
  refine ⟨by decide, by decide, evs, ?_, hcov⟩
  simpa [net_io.fresh] using ht

/-! ## C2 -/

/-- C2: when the asynchronous read with index `i` completes with an error, the
handler calls `on_failure` once and then releases the reference of that read
once: it asks the parser for no message, hands no message to
`on_message_read`, and issues no further read, so the read is gone from the
outstanding ones and none has been added; this for every amount of fuel. -/
theorem read_error_not_rearmed (P : message_parser_if σ) (fuel : Nat) (s : net_io σ)
    (i : Nat) (op : const_buffer) (ec : Int) (length : Nat)
    (hop : s.reads[i]? = some op) (hec : ec ≠ 0) :
    ∃ s1, step P fuel s (Action.read_completes i ec length) = some s1 ∧
      s1.trace = s.trace ++
        [Event.read_handler ec length, Event.on_failure, Event.release_reference] ∧
      s1.reads = s.reads.eraseIdx i ∧
      s1.reads.length + 1 = s.reads.length ∧
      s1.writes = s.writes ∧
      s1.parser = s.parser ∧
      s1.counter = s.counter - 1 := by
  have hi : i < s.reads.length := (List.getElem?_eq_some_iff.mp hop).1
  refine ⟨release_reference (on_failure
    { s with reads := s.reads.eraseIdx i
             trace := s.trace ++ [Event.read_handler ec length] }), ?_, ?_, rfl, ?_, rfl, rfl, rfl⟩
  · simp [step, hop, do_read_handler, hec]
  · simp [on_failure]
  · simp only [release_reference_reads, on_failure, net_io.emit,
      List.length_eraseIdx_of_lt hi]
    omega

/-- C2 at a session whose only outstanding read fails with error 104. -/
theorem read_error_not_rearmed_witness :
    ∃ s1, step frame4 0 (do_read frame4 (net_io.fresh 1 0) 4)
        (Action.read_completes 0 104 0) = some s1 ∧
      s1.trace = (do_read frame4 (net_io.fresh 1 0) 4).trace ++
        [Event.read_handler 104 0, Event.on_failure, Event.release_reference] ∧
      s1.reads = [] ∧ s1.counter = 1 := by
  obtain ⟨s1, h1, h2, h3, _, _, _, h7⟩ :=
    read_error_not_rearmed frame4 0 (do_read frame4 (net_io.fresh 1 0) 4) 0 ⟨0, 4096⟩ 104 0
      (by decide) (by decide)
  exact ⟨s1, h1, h2, by rw [h3]; decide, by rw [h7]; decide⟩

/-! ## C3 -/

theorem to_int_of_nat_lt (n : Nat) (h : (n : Int) < 2147483648) : to_int (n : Int) = n := by
  unfold to_int
  omega

theorem to_int_to_size_t (r : Int) (h : is_int r) : to_int (to_size_t r) = r := by
  unfold is_int at h
  unfold to_int to_size_t
  omega

theorem read_loop_none (P : message_parser_if σ) (fuel : Nat) (s : net_io σ) (rn : Int) :
    read_loop P fuel s none rn = some (s, rn) := by
  cases fuel <;> rfl

/-- With enough fuel the loop hands over exactly the messages the parser
returns and stops at its first empty answer. -/
theorem read_loop_extracts (P : message_parser_if σ) (p : σ) (len : Int)
    (msgs : List message_ex) (read_next : Int) (p1 : σ)
    (hx : extracts P p len msgs read_next p1) :
    ∀ (fuel : Nat) (s : net_io σ), s.parser = p → msgs.length ≤ fuel →
      read_loop P fuel (parser_get_message P s len).1 (parser_get_message P s len).2.1
          (parser_get_message P s len).2.2 =
        some ({ s with parser := p1
                       trace := s.trace ++ [Event.get_message_on_receive len] ++
                         loop_events msgs }, read_next) := by
  induction hx with
  | done p len read_next p1 h =>
      intro fuel s hs _
      subst hs
      simp only [parser_get_message, h, read_loop_none, loop_events, List.flatMap_nil,
        List.append_nil]
  | more p len msg r p1 msgs read_next p2 h rest ih =>
      intro fuel s hs hfuel
      subst hs
      cases fuel with
      | zero => simp at hfuel
      | succ fuel =>
          simp only [List.length_cons, Nat.add_le_add_iff_right] at hfuel
          have hstep : read_loop P (fuel + 1) (parser_get_message P s len).1
              (parser_get_message P s len).2.1 (parser_get_message P s len).2.2 =
              read_loop P fuel
                (parser_get_message P (on_message_read (parser_get_message P s len).1 msg) 0).1
                (parser_get_message P (on_message_read (parser_get_message P s len).1 msg) 0).2.1
                (parser_get_message P (on_message_read (parser_get_message P s len).1 msg) 0).2.2 := by
            have hm : (parser_get_message P s len).2.1 = some msg := by
              simp [parser_get_message, h]
            rw [hm]
            rfl
          rw [hstep, ih fuel (on_message_read (parser_get_message P s len).1 msg)
            (by simp [on_message_read, net_io.emit, parser_get_message, h]) hfuel]
          simp [on_message_read, net_io.emit, parser_get_message, loop_events]

/-- C3: when the asynchronous read with index `i` completes without error with
`n` bytes (`n` fitting the `int` the parser takes), and the parser, asked first
with `n` and then with `0`, returns the messages `msgs` and then no message,
reporting `read_next` at last, then with fuel for `msgs` the handler returns,
and what it did is, in order: the extraction with `n`; for every message of
`msgs` in turn `on_message_read` and an extraction with `0`; one `do_read`,
which adds a reference, passes `read_next` to the parser and issues one
`async_read_some`; the release of the finished read's reference. Exactly one
read has been added to the outstanding ones. -/
theorem read_success_rearms_once (P : message_parser_if σ) (fuel : Nat) (s : net_io σ)
    (i : Nat) (op : const_buffer) (n : Nat) (msgs : List message_ex) (read_next : Int) (p1 : σ)
    (hop : s.reads[i]? = some op) (hn : (n : Int) < 2147483648)
    (hx : extracts P s.parser n msgs read_next p1) (hr : is_int read_next)
    (hfuel : msgs.length ≤ fuel) :
    ∃ s1, step P fuel s (Action.read_completes i 0 n) = some s1 ∧
      s1.trace = s.trace ++ [Event.read_handler 0 n, Event.get_message_on_receive n] ++
        loop_events msgs ++
        [Event.add_reference, Event.read_buffer_ptr read_next, Event.read_buffer_capacity,
         Event.async_read_some (P.read_buffer_ptr p1 read_next).1
           (to_size_t (P.read_buffer_capacity (P.read_buffer_ptr p1 read_next).2).1),
         Event.release_reference] ∧
      s1.reads = s.reads.eraseIdx i ++
        [⟨(P.read_buffer_ptr p1 read_next).1,
          to_size_t (P.read_buffer_capacity (P.read_buffer_ptr p1 read_next).2).1⟩] ∧
      s1.writes = s.writes ∧
      s1.counter = s.counter := by
  have hloop := read_loop_extracts P s.parser n msgs read_next p1 hx fuel
    { s with reads := s.reads.eraseIdx i
             trace := s.trace ++ [Event.read_handler 0 n] } rfl hfuel
  refine ⟨release_reference (do_read P
    { s with parser := p1
             reads := s.reads.eraseIdx i
             trace := s.trace ++ [Event.read_handler 0 n] ++
               [Event.get_message_on_receive n] ++ loop_events msgs }
    (to_size_t read_next)), ?_, ?_, ?_, ?_, ?_⟩
  · simp only [step, hop, do_read_handler, ne_eq, not_true_eq_false, if_false,
      to_int_of_nat_lt n hn]
    rw [hloop]
  · simp [to_int_to_size_t read_next hr]
  · simp [to_int_to_size_t read_next hr]
  · simp
  · simp

/-- C3 on the four-byte frame parser: a read of 8 bytes holds two frames. -/
theorem read_success_rearms_once_witness :
    ∃ s1, step frame4 2 (do_read frame4 (net_io.fresh 1 0) 4)
        (Action.read_completes 0 0 8) = some s1 ∧
      s1.trace = (do_read frame4 (net_io.fresh 1 0) 4).trace ++
        [Event.read_handler 0 8, Event.get_message_on_receive 8,
         Event.on_message_read ⟨8, ⟨0, 0⟩, 0⟩, Event.get_message_on_receive 0,
         Event.on_message_read ⟨4, ⟨0, 0⟩, 0⟩, Event.get_message_on_receive 0,
         Event.add_reference, Event.read_buffer_ptr 4, Event.read_buffer_capacity,
         Event.async_read_some 0 4096, Event.release_reference] ∧
      s1.reads = [⟨0, 4096⟩] ∧ s1.counter = 2 := by
  obtain ⟨s1, h1, h2, h3, _, h5⟩ :=
    read_success_rearms_once frame4 2 (do_read frame4 (net_io.fresh 1 0) 4) 0 ⟨0, 4096⟩ 8
      [⟨8, ⟨0, 0⟩, 0⟩, ⟨4, ⟨0, 0⟩, 0⟩] 4 0 (by decide) (by decide)
      (extracts.more _ _ _ 4 4 _ _ _ rfl
        (extracts.more _ _ _ 4 0 _ _ _ rfl (extracts.done _ _ _ _ rfl)))
      (by unfold is_int; decide) (by decide)
  exact ⟨s1, h1, h2, by rw [h3]; decide, by rw [h5]; decide⟩

/-! ## C4 -/

theorem make_buffers2_length (c : Nat) (buffers : Nat → send_buf) :
    (make_buffers2 c buffers).length = c := by
  simp [make_buffers2]

theorem make_buffers2_get (c : Nat) (buffers : Nat → send_buf) (i : Nat) (h : i < c) :
    (make_buffers2 c buffers)[i]? = some ⟨(buffers i).buf, (buffers i).sz⟩ := by
  simp [make_buffers2, List.getElem?_map, List.getElem?_range h]

/-- The write handler of a message: the callback chosen by the error value,
then the release. -/
theorem write_completes_effect (P : message_parser_if σ) (fuel : Nat) (t : net_io σ) (j : Nat)
    (op : write_op) (ec : Int) (length : Nat) (hop : t.writes[j]? = some op) :
    ∃ t1, step P fuel t (Action.write_completes j ec length) = some t1 ∧
      t1.trace = t.trace ++
        [Event.write_handler ec length,
         if ec = 0 then Event.on_write_completed op.msg else Event.on_failure,
         Event.release_reference] ∧
      t1.writes = t.writes.eraseIdx j ∧
      t1.reads = t.reads ∧
      t1.counter = t.counter - 1 := by
  refine ⟨write_handler { t with writes := t.writes.eraseIdx j
                                 trace := t.trace ++ [Event.write_handler ec length] }
    op.msg ec length, by simp [step, hop], ?_, ?_, ?_, ?_⟩
  · by_cases hec : ec = 0
    · simp [write_handler, hec, on_write_completed]
    · simp [write_handler, hec, on_failure]
  · by_cases hec : ec = 0 <;> simp [write_handler, hec, on_write_completed, on_failure, net_io.emit]
  · by_cases hec : ec = 0 <;> simp [write_handler, hec, on_write_completed, on_failure, net_io.emit]
  · by_cases hec : ec = 0 <;> simp [write_handler, hec, on_write_completed, on_failure, net_io.emit]

/-- C4: for every message `msg`, `write` asks the parser for the buffers, adds
one reference and issues one `async_write`, whose buffer sequence has the `c`
entries the parser prepared, entry `i` with the address and size of the
parser's buffer `i`; and whenever that write completes, in whatever state `t`
it is then outstanding, the handler invokes `on_write_completed(msg)` when
there is no error and `on_failure` when there is one, and nothing else but the
one release that follows. The last part runs it right after the call. -/
theorem write_issues_one_async_write (P : message_parser_if σ) (fuel : Nat) (s : net_io σ)
    (msg : message_ex) (ec : Int) (length : Nat) :
    (write P s msg).trace = s.trace ++
      [Event.get_send_buffers_count_and_total_length msg, Event.prepare_buffers_on_send msg 0,
       Event.add_reference,
       Event.async_write (make_buffers2
         (P.prepare_buffers_on_send
            (P.get_send_buffers_count_and_total_length s.parser msg).2 msg 0).1.1
         (P.prepare_buffers_on_send
            (P.get_send_buffers_count_and_total_length s.parser msg).2 msg 0).1.2)] ∧
    (∀ (c : Nat) (buffers : Nat → send_buf),
      (make_buffers2 c buffers).length = c ∧
      ∀ i, i < c → (make_buffers2 c buffers)[i]? = some ⟨(buffers i).buf, (buffers i).sz⟩) ∧
    (write P s msg).writes = s.writes ++
      [⟨msg, make_buffers2
         (P.prepare_buffers_on_send
            (P.get_send_buffers_count_and_total_length s.parser msg).2 msg 0).1.1
         (P.prepare_buffers_on_send
            (P.get_send_buffers_count_and_total_length s.parser msg).2 msg 0).1.2⟩] ∧
    (write P s msg).counter = s.counter + 1 ∧
    (∀ (t : net_io σ) (j : Nat) (bufs : List const_buffer), t.writes[j]? = some ⟨msg, bufs⟩ →
      ∃ t1, step P fuel t (Action.write_completes j ec length) = some t1 ∧
        t1.trace = t.trace ++
          [Event.write_handler ec length,
           if ec = 0 then Event.on_write_completed msg else Event.on_failure,
           Event.release_reference] ∧
        t1.writes = t.writes.eraseIdx j ∧
        t1.counter = t.counter - 1) ∧
    (∃ s1, step P fuel (write P s msg) (Action.write_completes s.writes.length ec length) =
        some s1 ∧
      s1.trace = (write P s msg).trace ++
        [Event.write_handler ec length,
         if ec = 0 then Event.on_write_completed msg else Event.on_failure,
         Event.release_reference] ∧
      s1.writes = s.writes ∧
      s1.counter = s.counter) := by
  have hw : (write P s msg).writes = s.writes ++
      [⟨msg, make_buffers2
         (P.prepare_buffers_on_send
            (P.get_send_buffers_count_and_total_length s.parser msg).2 msg 0).1.1
         (P.prepare_buffers_on_send
            (P.get_send_buffers_count_and_total_length s.parser msg).2 msg 0).1.2⟩] := by
    simp [write, add_reference]
  refine ⟨write_trace P s msg, fun c buffers =>
    ⟨make_buffers2_length c buffers, fun i hi => make_buffers2_get c buffers i hi⟩,
    hw, rfl, ?_, ?_⟩
  · intro t j bufs hop
    obtain ⟨t1, h1, h2, h3, _, h5⟩ := write_completes_effect P fuel t j _ ec length hop
    exact ⟨t1, h1, h2, h3, h5⟩
  · have hop : (write P s msg).writes[s.writes.length]? = some ⟨msg, make_buffers2
         (P.prepare_buffers_on_send
            (P.get_send_buffers_count_and_total_length s.parser msg).2 msg 0).1.1
         (P.prepare_buffers_on_send
            (P.get_send_buffers_count_and_total_length s.parser msg).2 msg 0).1.2⟩ := by
      rw [hw]; simp
    obtain ⟨t1, h1, h2, h3, _, h5⟩ :=
      write_completes_effect P fuel (write P s msg) s.writes.length _ ec length hop
    refine ⟨t1, h1, h2, ?_, ?_⟩
    · rw [h3, hw, List.eraseIdx_append_of_length_le (Nat.le_refl _)]
      simp
    · rw [h5]; simp

/-! ## C5 -/

/-- C5 as stated fails: two calls of `write` without a completion between them
leave two asynchronous writes outstanding. -/
theorem two_writes_outstanding :
    (run_actions frame4 0 (net_io.fresh 1 0)
      [Action.write ⟨7, ⟨1, 2⟩, 0⟩, Action.write ⟨8, ⟨1, 2⟩, 0⟩]).map
      (fun s => s.writes.length) = some 2 := by
  decide

theorem step_writes_length (P : message_parser_if σ) (fuel : Nat) (s s1 : net_io σ) (a : Action)
    (h : step P fuel s a = some s1) :
    s1.writes.length ≤ s.writes.length ∨
      (∃ msg, a = Action.write msg) ∧ s1.writes.length = s.writes.length + 1 := by
  cases a with
  | do_read sz =>
      simp only [step, Option.some.injEq] at h
      subst h
      exact Or.inl (by simp)
  | write msg =>
      simp only [step, Option.some.injEq] at h
      subst h
      exact Or.inr ⟨⟨msg, rfl⟩, by simp⟩
  | read_completes i ec length =>
      simp only [step] at h
      split at h
      · exact absurd h (by simp)
      · left
        unfold do_read_handler at h
        by_cases hec : ec ≠ 0
        · rw [if_pos hec] at h
          simp only [Option.some.injEq] at h
          subst h
          simp [on_failure, net_io.emit]
        · rw [if_neg hec] at h
          simp only at h
          split at h
          · exact absurd h (by simp)
          · rename_i s2 read_next hloop
            simp only [Option.some.injEq] at h
            subst h
            obtain ⟨_, _, hw, _⟩ := read_loop_some P _ _ _ _ _ _ hloop
            simp [hw, parser_get_message]
  | write_completes i ec length =>
      cases hop : s.writes[i]? with
      | none => simp [step, hop] at h
      | some op =>
          obtain ⟨t1, h1, _, h3, _, _⟩ := write_completes_effect P fuel s i op ec length hop
          rw [h] at h1
          simp only [Option.some.injEq] at h1
          subst h1
          left
          rw [h3]
          exact List.length_eraseIdx_le _ _

/-- C5, amended: `write` issues its `async_write` at once, so every call adds
one outstanding write, whatever is outstanding; at most one write is
outstanding in every state reached from a state with at most one by a sequence
of actions in which every call of `write` finds no write outstanding. -/
theorem serialized_writes_at_most_one (P : message_parser_if σ) (fuel : Nat)
    (acts : List Action) (s0 s : net_io σ)
    (h0 : s0.writes.length ≤ 1) (hser : writes_serialized P fuel s0 acts)
    (hrun : run_actions P fuel s0 acts = some s) :
    s.writes.length ≤ 1 ∧
    ∀ (t : net_io σ) (msg : message_ex), (write P t msg).writes.length = t.writes.length + 1 := by
  refine ⟨?_, fun t msg => write_writes_length P t msg⟩
  induction acts generalizing s0 with
  | nil =>
      simp only [run_actions, Option.some.injEq] at hrun
      subst hrun
      exact h0
  | cons a rest ih =>
      simp only [run_actions] at hrun
      cases hs : step P fuel s0 a with
      | none => simp [hs] at hrun
      | some s2 =>
          rw [hs] at hrun
          simp only [Option.some_bind] at hrun
          obtain ⟨ha, hrest⟩ := hser
          rw [hs] at hrest
          refine ih s2 ?_ hrest hrun
          rcases step_writes_length P fuel s0 s2 a hs with hle | ⟨⟨msg, rfl⟩, heq⟩
          · omega
          · simp only at ha
            rw [heq, ha]
            simp

/-- C5, amended, at a sequence in which the second `write` follows the
completion of the first. -/
theorem serialized_writes_at_most_one_witness :
    ∃ s, run_actions frame4 0 (net_io.fresh 1 0)
        [Action.write ⟨7, ⟨1, 2⟩, 0⟩, Action.write_completes 0 0 24,
         Action.write ⟨8, ⟨1, 2⟩, 0⟩] = some s ∧ s.writes.length ≤ 1 := by
  refine ⟨_, rfl, ?_⟩
  exact (serialized_writes_at_most_one frame4 0
    [Action.write ⟨7, ⟨1, 2⟩, 0⟩, Action.write_completes 0 0 24, Action.write ⟨8, ⟨1, 2⟩, 0⟩]
    (net_io.fresh 1 0) _ (by decide) ⟨rfl, trivial, rfl, trivial⟩ rfl).1

/-! ## C6 -/

/-- The read handler issues no read after an error and one read after a
success. -/
theorem do_read_handler_reads (P : message_parser_if σ) (fuel : Nat) (s s1 : net_io σ)
    (ec : Int) (length : Nat) (h : do_read_handler P fuel s ec length = some s1) :
    s1.reads.length = s.reads.length + (if ec = 0 then 1 else 0) := by
  unfold do_read_handler at h
  by_cases hec : ec ≠ 0
  · rw [if_pos hec] at h
    simp only [Option.some.injEq] at h
    subst h
    simp [on_failure, net_io.emit, hec]
  · rw [if_neg hec] at h
    simp only at h
    split at h
    · exact absurd h (by simp)
    · rename_i s2 read_next hloop
      simp only [Option.some.injEq] at h
      subst h
      obtain ⟨_, hr, _, _⟩ := read_loop_some P _ _ _ _ _ _ hloop
      have hec0 : ec = 0 := by omega
      simp [hr, parser_get_message, hec0]

/-- The outstanding reads after an action. -/
theorem step_reads_length (P : message_parser_if σ) (fuel : Nat) (t t1 : net_io σ) (a : Action)
    (h : step P fuel t a = some t1) :
    t1.reads.length = a.reads_after t.reads.length := by
  cases a with
  | do_read sz =>
      simp only [step, Option.some.injEq] at h
      subst h
      simp [Action.reads_after]
  | write msg =>
      simp only [step, Option.some.injEq] at h
      subst h
      simp [Action.reads_after]
  | read_completes i ec length =>
      cases hop : t.reads[i]? with
      | none => simp [step, hop] at h
      | some op =>
          have hi : i < t.reads.length := (List.getElem?_eq_some_iff.mp hop).1
          simp only [step, hop] at h
          rw [do_read_handler_reads P fuel _ _ _ _ h]
          simp only [List.length_eraseIdx_of_lt hi, Action.reads_after]
  | write_completes i ec length =>
      cases hop : t.writes[i]? with
      | none => simp [step, hop] at h
      | some op =>
          obtain ⟨t2, h1, _, _, h4, _⟩ := write_completes_effect P fuel t i op ec length hop
          rw [h] at h1
          simp only [Option.some.injEq] at h1
          subst h1
          simp [h4, Action.reads_after]

/-- C6: after a single initial call of `do_read` on a session without an
outstanding read, in every state reached by completions of reads, calls of
`write` and completions of writes, at most one asynchronous read is
outstanding; and every action changes the number of outstanding reads as
`reads_after` says: only a call of `do_read` and the completion of a
successful read issue a read, the latter exactly one, in place of the finished
one; a failed read completion issues none. -/
theorem reads_sequential (P : message_parser_if σ) (fuel : Nat) (sz : Nat)
    (acts : List Action) (s0 s : net_io σ)
    (h0 : s0.reads = []) (hacts : ∀ a ∈ acts, a.is_do_read = false)
    (hrun : run_actions P fuel (do_read P s0 sz) acts = some s) :
    s.reads.length ≤ 1 ∧
    ∀ (t t1 : net_io σ) (a : Action), step P fuel t a = some t1 →
      t1.reads.length = a.reads_after t.reads.length := by
  refine ⟨?_, fun t t1 a h => step_reads_length P fuel t t1 a h⟩
  have key : ∀ (acts : List Action) (u : net_io σ), u.reads.length ≤ 1 →
      (∀ a ∈ acts, a.is_do_read = false) → run_actions P fuel u acts = some s → s.reads.length ≤ 1 := by
    intro acts
    induction acts with
    | nil =>
        intro u hu _ hr
        simp only [run_actions, Option.some.injEq] at hr
        subst hr
        exact hu
    | cons a rest ih =>
        intro u hu hall hr
        simp only [run_actions] at hr
        cases hs : step P fuel u a with
        | none => simp [hs] at hr
        | some u1 =>
            rw [hs] at hr
            simp only [Option.some_bind] at hr
            have ha := hall a (List.mem_cons_self _ _)
            have hlen := step_reads_length P fuel u u1 a hs
            refine ih u1 ?_ (fun b hb => hall b (List.mem_cons_of_mem _ hb)) hr
            cases a with
            | do_read sz => simp [Action.is_do_read] at ha
            | write msg => simp only [Action.reads_after] at hlen; omega
            | read_completes i ec length =>
                simp only [Action.reads_after] at hlen
                cases hop : u.reads[i]? with
                | none => simp [step, hop] at hs
                | some op =>
                    have hi : i < u.reads.length := (List.getElem?_eq_some_iff.mp hop).1
                    split at hlen <;> omega
            | write_completes i ec length => simp only [Action.reads_after] at hlen; omega
  exact key acts (do_read P s0 sz) (by simp [h0]) hacts hrun

/-- C6 on the four-byte frame parser: the read loop runs through a partial
frame, a read of two frames and a write, and ends with a failed read. -/
theorem reads_sequential_witness :
    ∃ s, run_actions frame4 3 (do_read frame4 (net_io.fresh 1 0) 4)
        [Action.read_completes 0 0 3, Action.write ⟨7, ⟨1, 2⟩, 0⟩, Action.read_completes 0 0 9,
         Action.write_completes 0 0 24, Action.read_completes 0 104 0] = some s ∧
      s.reads.length ≤ 1 := by
  refine ⟨_, rfl, ?_⟩
  exact (reads_sequential frame4 3 4
    [Action.read_completes 0 0 3, Action.write ⟨7, ⟨1, 2⟩, 0⟩, Action.read_completes 0 0 9,
     Action.write_completes 0 0 24, Action.read_completes 0 104 0]
    (net_io.fresh 1 0) _ rfl (by decide) rfl).1

/-! ## C7 -/

/-- C7 as stated fails: when the shutdown succeeds and the `close` call of the
socket throws, `net_io::close` ends with that exception. -/
theorem close_failure_propagates :
    (close ⟨Except.ok (), Except.error ⟨9⟩⟩ (net_io.fresh 1 (0 : Nat))).1 =
      Except.error ⟨9⟩ := by
  rfl

/-- C7, amended: `net_io::close` shuts the socket down in both directions and
then calls `close` on it, whether or not the shutdown threw; an exception of
the shutdown is swallowed, and `net_io::close` ends the way the `close` call of
the socket ends, so it returns normally whenever that call does. -/
theorem close_ignores_shutdown_failure (sock : socket_outcome) (s : net_io σ) :
    (close sock s).2.trace = s.trace ++ [Event.socket_shutdown_both, Event.socket_close] ∧
    (close sock s).1 = sock.close ∧
    (∀ (e : Except system_error Unit),
      (close ⟨e, Except.ok ()⟩ s).1 = Except.ok ()) := by
  refine ⟨?_, ?_, ?_⟩
  · unfold close
    cases sock.shutdown <;> simp
  · unfold close
    cases sock.shutdown <;> rfl
  · intro e
    unfold close
    cases e <;> rfl

end tools

/-! ## C8 -/

/-- C8: let the internally created task, when `wait` returns, have error `e`.
When `e` is `ERR_OK` and the task holds the response `m`, `dsn_rpc_call_wait`
returns `m` with one reference added; when `e` is any other error, it returns
null. Whenever it returns, it has called `add_ref` once and `release_ref` once
on the task, the release coming last, so the count it leaves is the count of
the waited task minus the one reference it had added itself. -/
theorem rpc_call_wait_returns (env : rpc_env) (server : dsn_address_t) (request : message_ex) :
    (∀ m, (waited_task env server request).error = ERR_OK →
      (waited_task env server request).response = some m →
      ∃ r, dsn_rpc_call_wait env server request = Except.ok r ∧
        r.returned = some { m with refs := m.refs + 1 }) ∧
    ((waited_task env server request).error ≠ ERR_OK →
      ∃ r, dsn_rpc_call_wait env server request = Except.ok r ∧ r.returned = none ∧
        r.log.count rpc_event.msg_add_ref = 0) ∧
    (∀ r, dsn_rpc_call_wait env server request = Except.ok r →
      r.log.count rpc_event.rtask_add_ref = 1 ∧
      r.log.count rpc_event.rtask_release_ref = 1 ∧
      r.log.getLast? = some rpc_event.rtask_release_ref ∧
      r.rtask.refs = (waited_task env server request).refs - 1 ∧
      ((env.new_task { request with server_address := server }).add_ref).refs =
        (env.new_task { request with server_address := server }).refs + 1 ∧
      r.request = { request with server_address := server }) := by
  refine ⟨?_, ?_, ?_⟩
  · intro m he hm
    unfold waited_task at he hm
    exact ⟨_, by simp only [dsn_rpc_call_wait, he, hm, if_true]; rfl, rfl⟩
  · intro he
    unfold waited_task at he
    exact ⟨_, by simp only [dsn_rpc_call_wait, he, if_false]; rfl, rfl, by simp⟩
  · intro r hr
    unfold dsn_rpc_call_wait at hr
    simp only at hr
    split at hr
    · split at hr
      · exact absurd hr (by simp)
      · simp only [Except.ok.injEq] at hr
        subst hr
        exact ⟨by simp, by simp, by simp, rfl, rfl, rfl⟩
    · simp only [Except.ok.injEq] at hr
      subst hr
      exact ⟨by simp, by simp, by simp, rfl, rfl, rfl⟩

/-- C8 at an engine that answers with `ERR_OK` and a response, and at one that
answers with another error (a timeout) and no response. -/
theorem rpc_call_wait_returns_witness :
    (∃ r, dsn_rpc_call_wait (fixed_env 0 (some ⟨9, ⟨1, 2⟩, 1⟩)) ⟨3, 4⟩ ⟨5, ⟨0, 0⟩, 1⟩ =
        Except.ok r ∧ r.returned = some ⟨9, ⟨1, 2⟩, 2⟩ ∧ r.rtask.refs = 0) ∧
    (∃ r, dsn_rpc_call_wait (fixed_env 7 none) ⟨3, 4⟩ ⟨5, ⟨0, 0⟩, 1⟩ = Except.ok r ∧
        r.returned = none ∧ r.rtask.refs = 0) := by
  have h1 := rpc_call_wait_returns (fixed_env 0 (some ⟨9, ⟨1, 2⟩, 1⟩)) ⟨3, 4⟩ ⟨5, ⟨0, 0⟩, 1⟩
  have h2 := rpc_call_wait_returns (fixed_env 7 none) ⟨3, 4⟩ ⟨5, ⟨0, 0⟩, 1⟩
  obtain ⟨r1, hr1, hret1⟩ := h1.1 ⟨9, ⟨1, 2⟩, 1⟩ rfl rfl
  obtain ⟨r2, hr2, hret2, _⟩ := h2.2.1 (by decide)
  refine ⟨⟨r1, hr1, hret1, ?_⟩, ⟨r2, hr2, hret2, ?_⟩⟩
  · rw [(h1.2.2 r1 hr1).2.2.2.1]; decide
  · rw [(h2.2.2 r2 hr2).2.2.2.1]; decide

/-! ## C9 -/

theorem is_config_completed_iff (a : _all_info_) :
    a.is_config_completed = true ↔
      to_unsigned a.magic = 3735928559 ∧ a.config_completed = true := by
  simp [_all_info_.is_config_completed]

theorem task_code_register_refused (g : globals) (name : String) (type pri pool : Int)
    (h : g.dsn_all.is_config_completed = true) :
    dsn_task_code_register g name type pri pool = Except.error
      ⟨"task code must be registered before the service app role is registered"⟩ := by
  simp [dsn_task_code_register, h]

theorem task_code_register_passes (g : globals) (name : String) (type pri pool : Int)
    (h : g.dsn_all.is_config_completed = false) :
    dsn_task_code_register g name type pri pool = Except.ok
      ((g.task_codes.register_id name).1,
       task_spec.register_task_code { g with task_codes := (g.task_codes.register_id name).2 }
         (g.task_codes.register_id name).1 type pri pool) := by
  simp [dsn_task_code_register, h]

theorem threadpool_code_register_refused (g : globals) (name : String)
    (h : g.dsn_all.is_config_completed = true) :
    dsn_threadpool_code_register g name = Except.error
      ⟨"thread pool code must be registered before the service app role is registered"⟩ := by
  simp [dsn_threadpool_code_register, h]

theorem threadpool_code_register_passes (g : globals) (name : String)
    (h : g.dsn_all.is_config_completed = false) :
    dsn_threadpool_code_register g name = Except.ok
      ((g.threadpool_codes.register_id name).1,
       { g with threadpool_codes := (g.threadpool_codes.register_id name).2 }) := by
  simp [dsn_threadpool_code_register, h]

/-- C9: `dsn_task_code_register` and `dsn_threadpool_code_register` fail their
assertion exactly when configuration is completed, that is when `magic`,
converted for the comparison, equals `0xdeadbeef` and `config_completed` is
set, and otherwise return the id the registry assigns to the name. Both pass
the gate in the state of a process in which `run()` has not been called, and
both fail after `run()` has stored `0xdeadbeef` in the `int` field `magic`
(which then holds -559038737) and has set `config_completed`. -/
theorem registration_gate (g : globals) (name : String) (type pri pool : Int) :
    (g.dsn_all.is_config_completed = true ↔
      to_unsigned g.dsn_all.magic = 3735928559 ∧ g.dsn_all.config_completed = true) ∧
    ((∃ e, dsn_task_code_register g name type pri pool = Except.error e) ↔
      g.dsn_all.is_config_completed = true) ∧
    ((∃ e, dsn_threadpool_code_register g name = Except.error e) ↔
      g.dsn_all.is_config_completed = true) ∧
    (g.dsn_all.is_config_completed = false →
      (∃ g1, dsn_task_code_register g name type pri pool =
        Except.ok ((g.task_codes.register_id name).1, g1)) ∧
      (∃ g1, dsn_threadpool_code_register g name =
        Except.ok ((g.threadpool_codes.register_id name).1, g1))) ∧
    (globals.initial.dsn_all.is_config_completed = false ∧
      (∃ r, dsn_task_code_register globals.initial name type pri pool = Except.ok r) ∧
      (∃ r, dsn_threadpool_code_register globals.initial name = Except.ok r)) ∧
    (∀ cfg, (run_config g (some cfg) true).1 = true ∧
      (run_config g (some cfg) true).2.dsn_all.magic = -559038737 ∧
      (run_config g (some cfg) true).2.dsn_all.config_completed = true ∧
      (run_config g (some cfg) true).2.dsn_all.is_config_completed = true ∧
      (∃ e, dsn_task_code_register (run_config g (some cfg) true).2 name type pri pool =
        Except.error e) ∧
      (∃ e, dsn_threadpool_code_register (run_config g (some cfg) true).2 name =
        Except.error e)) := by
  have hrun : ∀ cfg, (run_config g (some cfg) true).2.dsn_all.is_config_completed = true := by
    intro cfg
    simp only [run_config, if_true, _all_info_.is_config_completed]
    decide
  have hinit : globals.initial.dsn_all.is_config_completed = false := by decide
  refine ⟨is_config_completed_iff _, ?_, ?_, ?_, ⟨hinit, ?_, ?_⟩, ?_⟩
  · cases h : g.dsn_all.is_config_completed
    · simp [task_code_register_passes g name type pri pool h]
    · simp [task_code_register_refused g name type pri pool h]
  · cases h : g.dsn_all.is_config_completed
    · simp [threadpool_code_register_passes g name h]
    · simp [threadpool_code_register_refused g name h]
  · intro h
    exact ⟨⟨_, task_code_register_passes g name type pri pool h⟩,
      ⟨_, threadpool_code_register_passes g name h⟩⟩
  · exact ⟨_, task_code_register_passes _ name type pri pool hinit⟩
  · exact ⟨_, threadpool_code_register_passes _ name hinit⟩
  · intro cfg
    refine ⟨rfl, ?_, rfl, hrun cfg, ?_, ?_⟩
    · simp only [run_config, if_true]
      decide
    · exact ⟨_, task_code_register_refused _ name type pri pool (hrun cfg)⟩
    · exact ⟨_, threadpool_code_register_refused _ name (hrun cfg)⟩

/-! ## C10 -/

/-- C10 as stated fails: after `run()` has completed the configuration,
`dsn_error_register` registers a new name and returns its code. -/
theorem error_register_after_config_completed :
    (run_config globals.initial (some []) true).2.dsn_all.is_config_completed = true ∧
    (dsn_error_register (run_config globals.initial (some []) true).2 "ERR_NEW").1 = 1 ∧
    (dsn_error_register (run_config globals.initial (some []) true).2
      "ERR_NEW").2.error_codes.names = ["ERR_OK", "ERR_NEW"] := by
  refine ⟨by decide, by decide, by decide⟩

theorem get_id_register_id (m : customized_id_mgr) (name : String) :
    (m.register_id name).2.get_id name = (m.register_id name).1 ∧
    0 ≤ (m.register_id name).1 := by
  by_cases h : name ∈ m.names
  · have hg : m.get_id name = (m.names.indexOf name : Int) := by simp [customized_id_mgr.get_id, h]
    have hne : m.get_id name ≠ -1 := by rw [hg]; omega
    have hr : m.register_id name = (m.get_id name, m) := by
      simp [customized_id_mgr.register_id, hne]
    rw [hr]
    exact ⟨rfl, by rw [hg]; omega⟩
  · have hg : m.get_id name = -1 := by simp [customized_id_mgr.get_id, h]
    have hr : m.register_id name = ((m.names.length : Int), ⟨m.names ++ [name]⟩) := by
      simp [customized_id_mgr.register_id, hg]
    rw [hr]
    refine ⟨?_, by simp⟩
    simp [customized_id_mgr.get_id, List.indexOf_append_of_not_mem h]

/-- C10, amended: `dsn_error_register` has no gate: whether or not
configuration is completed, it returns the id the registry of error codes
assigns to the name, which the registry knows afterwards, and leaves the rest
of the state as it is; only the registration of thread pool codes and of task
codes is refused once configuration is completed. -/
theorem error_register_ungated (g : globals) (name : String) :
    (dsn_error_register g name).1 = (g.error_codes.register_id name).1 ∧
    (dsn_error_register g name).2.error_codes.get_id name = (dsn_error_register g name).1 ∧
    0 ≤ (dsn_error_register g name).1 ∧
    (dsn_error_register g name).2.dsn_all = g.dsn_all ∧
    (dsn_error_register g name).2.threadpool_codes = g.threadpool_codes ∧
    (dsn_error_register g name).2.task_codes = g.task_codes ∧
    (g.dsn_all.is_config_completed = true →
      (∃ e, dsn_threadpool_code_register g name = Except.error e) ∧
      ∀ type pri pool, ∃ e, dsn_task_code_register g name type pri pool = Except.error e) := by
  refine ⟨rfl, (get_id_register_id g.error_codes name).1, (get_id_register_id g.error_codes name).2,
    rfl, rfl, rfl, ?_⟩
  intro h
  exact ⟨⟨_, threadpool_code_register_refused g name h⟩,
    fun type pri pool => ⟨_, task_code_register_refused g name type pri pool h⟩⟩

/-! ## C11 -/

/-- C11 as stated fails: in a process whose configuration is completed, the
priority and the thread pool that `dsn_task_code_query` reports for task code
0 change with calls of `dsn_task_code_set_priority` and
`dsn_task_code_set_threadpool`. -/
theorem task_priority_changes_after_config_completed :
    globals.configured.dsn_all.is_config_completed = true ∧
    dsn_task_code_query globals.configured 0 = Except.ok ⟨1, 1, 0⟩ ∧
    (api_calls globals.configured
      [api_call.task_code_set_priority 0 3, api_call.task_code_set_threadpool 0 5]).bind
      (fun g => dsn_task_code_query g 0) = Except.ok ⟨1, 3, 5⟩ := by
  refine ⟨by decide, rfl, rfl⟩

theorem find_store_modify (f : task_spec → task_spec) (code c : Int)
    (l : List (Int × task_spec)) :
    ((store_modify f code l).find? (fun e => e.1 == c)).map (fun e => e.2) =
      if c = code then ((l.find? (fun e => e.1 == c)).map (fun e => e.2)).map f
      else (l.find? (fun e => e.1 == c)).map (fun e => e.2) := by
  induction l with
  | nil => simp [store_modify]
  | cons e rest ih =>
      by_cases he : e.1 = code
      · have hsm : store_modify f code (e :: rest) = (e.1, f e.2) :: rest := by
          simp [store_modify, he]
        rw [hsm, List.find?_cons, List.find?_cons]
        by_cases hc : c = code
        · have hb2 : (e.1 == c) = true := by simp [he, hc]
          simp only [hb2, if_pos hc]
          rfl
        · have hb2 : (e.1 == c) = false := by
            simp only [beq_eq_false_iff_ne, ne_eq]
            rw [he]; exact fun h => hc h.symm
          simp only [hb2, if_neg hc]
      · have hsm : store_modify f code (e :: rest) = e :: store_modify f code rest := by
          simp [store_modify, he]
        rw [hsm, List.find?_cons, List.find?_cons]
        by_cases hec : e.1 = c
        · have hb2 : (e.1 == c) = true := by simpa using hec
          have hc : ¬ (c = code) := by rw [← hec]; exact he
          simp only [hb2, if_neg hc]
        · have hb2 : (e.1 == c) = false := by simpa using hec
          simp only [hb2]
          exact ih

theorem get_store_modify (g : globals) (f : task_spec → task_spec) (code c : Int) :
    task_spec.get { g with task_spec_store := store_modify f code g.task_spec_store } c =
      if c = code then (task_spec.get g c).map f else task_spec.get g c := by
  simp only [task_spec.get]
  exact find_store_modify f code c g.task_spec_store

/-- The effect of `dsn_task_code_set_priority` on what is stored. -/
theorem set_priority_effect (g : globals) (code pri : Int) (sp : task_spec)
    (h : task_spec.get g code = some sp) :
    ∃ g1, dsn_task_code_set_priority g code pri = Except.ok g1 ∧
      g1.dsn_all = g.dsn_all ∧ g1.task_codes = g.task_codes ∧
      ∀ c, task_spec.get g1 c =
        if c = code then (task_spec.get g c).map (fun sp => { sp with priority := pri })
        else task_spec.get g c := by
  refine ⟨{ g with
      task_spec_store :=
        store_modify (fun sp => { sp with priority := pri }) code g.task_spec_store },
    by simp only [dsn_task_code_set_priority, h], rfl, rfl, ?_⟩
  intro c
  exact get_store_modify g _ code c

/-- The effect of `dsn_task_code_set_threadpool` on what is stored. -/
theorem set_threadpool_effect (g : globals) (code pool : Int) (sp : task_spec)
    (h : task_spec.get g code = some sp) :
    ∃ g1, dsn_task_code_set_threadpool g code pool = Except.ok g1 ∧
      g1.dsn_all = g.dsn_all ∧ g1.task_codes = g.task_codes ∧
      ∀ c, task_spec.get g1 c =
        if c = code then (task_spec.get g c).map (fun sp => { sp with pool_code := pool })
        else task_spec.get g c := by
  refine ⟨{ g with
      task_spec_store :=
        store_modify (fun sp => { sp with pool_code := pool }) code g.task_spec_store },
    by simp only [dsn_task_code_set_threadpool, h], rfl, rfl, ?_⟩
  intro c
  exact get_store_modify g _ code c

/-- One call made when configuration is completed leaves `dsn_all` and the
kind of every task code as they are. -/
theorem api_call_keeps_kind (g g1 : globals) (c : api_call)
    (hc : g.dsn_all.is_config_completed = true) (h : c.apply g = Except.ok g1) :
    g1.dsn_all = g.dsn_all ∧
    ∀ code, (task_spec.get g1 code).map (fun sp => sp.type) =
      (task_spec.get g code).map (fun sp => sp.type) := by
  cases c with
  | error_register name =>
      simp only [api_call.apply, Except.ok.injEq] at h
      subst h
      exact ⟨rfl, fun _ => rfl⟩
  | threadpool_code_register name =>
      simp [api_call.apply, threadpool_code_register_refused g name hc, Except.map] at h
  | task_code_register name type pri pool =>
      simp [api_call.apply, task_code_register_refused g name type pri pool hc, Except.map] at h
  | task_code_set_threadpool code pool =>
      simp only [api_call.apply] at h
      cases hg : task_spec.get g code with
      | none => simp [dsn_task_code_set_threadpool, hg] at h
      | some sp =>
          obtain ⟨g2, h2, hd, _, hget⟩ := set_threadpool_effect g code pool sp hg
          rw [h] at h2
          simp only [Except.ok.injEq] at h2
          subst h2
          refine ⟨hd, fun c => ?_⟩
          rw [hget c]
          split
          · cases task_spec.get g c <;> rfl
          · rfl
  | task_code_set_priority code pri =>
      simp only [api_call.apply] at h
      cases hg : task_spec.get g code with
      | none => simp [dsn_task_code_set_priority, hg] at h
      | some sp =>
          obtain ⟨g2, h2, hd, _, hget⟩ := set_priority_effect g code pri sp hg
          rw [h] at h2
          simp only [Except.ok.injEq] at h2
          subst h2
          refine ⟨hd, fun c => ?_⟩
          rw [hget c]
          split
          · cases task_spec.get g c <;> rfl
          · rfl
  | task_code_query code =>
      simp only [api_call.apply] at h
      cases hq : dsn_task_code_query g code with
      | error e => simp [hq, Except.map] at h
      | ok sp =>
          simp only [hq, Except.map, Except.ok.injEq] at h
          subst h
          exact ⟨rfl, fun _ => rfl⟩

theorem api_calls_keep_kind (calls : List api_call) :
    ∀ (g g1 : globals), g.dsn_all.is_config_completed = true →
      api_calls g calls = Except.ok g1 →
      g1.dsn_all = g.dsn_all ∧
      ∀ code, (task_spec.get g1 code).map (fun sp => sp.type) =
        (task_spec.get g code).map (fun sp => sp.type) := by
  induction calls with
  | nil =>
      intro g g1 _ h
      simp only [api_calls, Except.ok.injEq] at h
      subst h
      exact ⟨rfl, fun _ => rfl⟩
  | cons c rest ih =>
      intro g g1 hc h
      simp only [api_calls] at h
      cases hs : c.apply g with
      | error e => simp [hs] at h
      | ok g2 =>
          rw [hs] at h
          simp only at h
          obtain ⟨hd, hk⟩ := api_call_keeps_kind g g2 c hc hs
          have hc2 : g2.dsn_all.is_config_completed = true := by rw [hd]; exact hc
          obtain ⟨hd2, hk2⟩ := ih g2 g1 hc2 h
          exact ⟨by rw [hd2, hd], fun code => by rw [hk2 code, hk code]⟩

theorem query_eq_ok_iff (g : globals) (code : Int) (sp : task_spec) :
    dsn_task_code_query g code = Except.ok sp ↔ task_spec.get g code = some sp := by
  unfold dsn_task_code_query
  cases task_spec.get g code <;> simp

/-- C11, amended: once configuration is completed, after every sequence of
calls of the registration functions, of `dsn_task_code_set_threadpool`, of
`dsn_task_code_set_priority` and of `dsn_task_code_query` that does not abort,
configuration is still completed and `dsn_task_code_query` reports for every
task code the kind it reported before. The priority and the thread pool are
not immutable: the two setters have no gate, and after a call of one of them
the query reports the value set. -/
theorem task_kind_immutable (g g1 : globals) (calls : List api_call)
    (hc : g.dsn_all.is_config_completed = true) (hrun : api_calls g calls = Except.ok g1) :
    g1.dsn_all.is_config_completed = true ∧
    (∀ code sp, dsn_task_code_query g code = Except.ok sp →
      ∃ sp1, dsn_task_code_query g1 code = Except.ok sp1 ∧ sp1.type = sp.type) ∧
    (∀ code pri sp, dsn_task_code_query g code = Except.ok sp →
      ∃ g2, dsn_task_code_set_priority g code pri = Except.ok g2 ∧
        dsn_task_code_query g2 code = Except.ok { sp with priority := pri }) ∧
    (∀ code pool sp, dsn_task_code_query g code = Except.ok sp →
      ∃ g2, dsn_task_code_set_threadpool g code pool = Except.ok g2 ∧
        dsn_task_code_query g2 code = Except.ok { sp with pool_code := pool }) := by
  obtain ⟨hd, hk⟩ := api_calls_keep_kind calls g g1 hc hrun
  refine ⟨by rw [hd]; exact hc, ?_, ?_, ?_⟩
  · intro code sp hq
    rw [query_eq_ok_iff] at hq
    have h := hk code
    rw [hq] at h
    cases hg : task_spec.get g1 code with
    | none => rw [hg] at h; simp at h
    | some sp1 =>
        rw [hg] at h
        simp only [Option.map_some', Option.some.injEq] at h
        exact ⟨sp1, (query_eq_ok_iff g1 code sp1).mpr hg, h⟩
  · intro code pri sp hq
    rw [query_eq_ok_iff] at hq
    obtain ⟨g2, h2, _, _, hget⟩ := set_priority_effect g code pri sp hq
    refine ⟨g2, h2, (query_eq_ok_iff _ _ _).mpr ?_⟩
    rw [hget code, if_pos rfl, hq]
    rfl
  · intro code pool sp hq
    rw [query_eq_ok_iff] at hq
    obtain ⟨g2, h2, _, _, hget⟩ := set_threadpool_effect g code pool sp hq
    refine ⟨g2, h2, (query_eq_ok_iff _ _ _).mpr ?_⟩
    rw [hget code, if_pos rfl, hq]
    rfl

/-- C11, amended, at a configured process: two setter calls and a query. -/
theorem task_kind_immutable_witness :
    ∃ g1, api_calls globals.configured
        [api_call.task_code_set_priority 0 3, api_call.task_code_set_threadpool 0 5,
         api_call.task_code_query 0] = Except.ok g1 ∧
      ∃ sp1, dsn_task_code_query g1 0 = Except.ok sp1 ∧ sp1.type = 1 := by
  refine ⟨_, rfl, ?_⟩
  exact (task_kind_immutable globals.configured _
    [api_call.task_code_set_priority 0 3, api_call.task_code_set_threadpool 0 5,
     api_call.task_code_query 0] (by decide) rfl).2.1 0 ⟨1, 1, 0⟩ rfl

/-! ## C12 -/

theorem get_id_of_mem (m : customized_id_mgr) (s : String) (h : s ∈ m.names) :
    m.get_id s = (m.names.indexOf s : Int) ∧ 0 ≤ m.get_id s := by
  have hg : m.get_id s = (m.names.indexOf s : Int) := by simp [customized_id_mgr.get_id, h]
  exact ⟨hg, by rw [hg]; omega⟩

theorem get_id_eq_neg_one_iff (m : customized_id_mgr) (s : String) :
    m.get_id s = -1 ↔ s ∉ m.names := by
  by_cases h : s ∈ m.names
  · have := (get_id_of_mem m s h).2
    constructor
    · intro h1; omega
    · intro h1; exact absurd h h1
  · simp [customized_id_mgr.get_id, h]

theorem get_name_get_id (m : customized_id_mgr) (s : String) (h : s ∈ m.names) :
    m.get_name (m.get_id s) = some s := by
  obtain ⟨hg, h0⟩ := get_id_of_mem m s h
  unfold customized_id_mgr.get_name
  rw [if_pos h0, hg]
  simpa using List.getElem?_indexOf h

theorem register_id_names (m : customized_id_mgr) (name : String) :
    ∃ extra, (m.register_id name).2.names = m.names ++ extra ∧
      name ∈ (m.register_id name).2.names := by
  by_cases h : name ∈ m.names
  · have hne : ¬ (m.get_id name = -1) := by rw [get_id_eq_neg_one_iff]; exact fun h1 => h1 h
    exact ⟨[], by simp [customized_id_mgr.register_id, hne],
      by simp [customized_id_mgr.register_id, hne, h]⟩
  · have he : m.get_id name = -1 := (get_id_eq_neg_one_iff m name).mpr h
    exact ⟨[name], by simp [customized_id_mgr.register_id, he],
      by simp [customized_id_mgr.register_id, he]⟩

theorem register_task_code_keeps_names (g : globals) (code type pri pool : Int) :
    (task_spec.register_task_code g code type pri pool).task_codes = g.task_codes := by
  unfold task_spec.register_task_code
  cases task_spec.get g code <;> rfl

/-- A call of the API can only append names to the registry of task codes. -/
theorem api_call_appends_names (g g1 : globals) (c : api_call)
    (h : c.apply g = Except.ok g1) :
    ∃ extra, g1.task_codes.names = g.task_codes.names ++ extra := by
  cases c with
  | error_register name =>
      simp only [api_call.apply, Except.ok.injEq] at h
      subst h
      exact ⟨[], by simp [dsn_error_register]⟩
  | threadpool_code_register name =>
      cases hc : g.dsn_all.is_config_completed with
      | true =>
          simp [api_call.apply, threadpool_code_register_refused g name hc, Except.map] at h
      | false =>
          simp only [api_call.apply, threadpool_code_register_passes g name hc, Except.map,
            Except.ok.injEq] at h
          subst h
          exact ⟨[], by simp⟩
  | task_code_register name type pri pool =>
      cases hc : g.dsn_all.is_config_completed with
      | true =>
          simp [api_call.apply, task_code_register_refused g name type pri pool hc,
            Except.map] at h
      | false =>
          simp only [api_call.apply, task_code_register_passes g name type pri pool hc,
            Except.map, Except.ok.injEq] at h
          subst h
          obtain ⟨extra, he, _⟩ := register_id_names g.task_codes name
          exact ⟨extra, by rw [register_task_code_keeps_names]; exact he⟩
  | task_code_set_threadpool code pool =>
      simp only [api_call.apply] at h
      cases hg : task_spec.get g code with
      | none => simp [dsn_task_code_set_threadpool, hg] at h
      | some sp =>
          obtain ⟨g2, h2, _, hn, _⟩ := set_threadpool_effect g code pool sp hg
          rw [h] at h2
          simp only [Except.ok.injEq] at h2
          subst h2
          exact ⟨[], by rw [hn]; simp⟩
  | task_code_set_priority code pri =>
      simp only [api_call.apply] at h
      cases hg : task_spec.get g code with
      | none => simp [dsn_task_code_set_priority, hg] at h
      | some sp =>
          obtain ⟨g2, h2, _, hn, _⟩ := set_priority_effect g code pri sp hg
          rw [h] at h2
          simp only [Except.ok.injEq] at h2
          subst h2
          exact ⟨[], by rw [hn]; simp⟩
  | task_code_query code =>
      simp only [api_call.apply] at h
      cases hq : dsn_task_code_query g code with
      | error e => simp [hq, Except.map] at h
      | ok sp =>
          simp only [hq, Except.map, Except.ok.injEq] at h
          subst h
          exact ⟨[], by simp⟩

theorem api_calls_append_names (calls : List api_call) :
    ∀ (g g1 : globals), api_calls g calls = Except.ok g1 →
      ∃ extra, g1.task_codes.names = g.task_codes.names ++ extra := by
  induction calls with
  | nil =>
      intro g g1 h
      simp only [api_calls, Except.ok.injEq] at h
      subst h
      exact ⟨[], by simp⟩
  | cons c rest ih =>
      intro g g1 h
      simp only [api_calls] at h
      cases hs : c.apply g with
      | error e => simp [hs] at h
      | ok g2 =>
          rw [hs] at h
          simp only at h
          obtain ⟨e1, h1⟩ := api_call_appends_names g g2 c hs
          obtain ⟨e2, h2⟩ := ih g2 g1 h
          exact ⟨e1 ++ e2, by rw [h2, h1, List.append_assoc]⟩

/-- C12: let the name `s` have been registered by a call of
`dsn_task_code_register` that returned the code `r`, and let any calls of the
API have followed. Then for every default `d`, `dsn_task_code_from_string`
gives `r` for `s`, and `dsn_task_code_to_string` gives `s` for that code.
The default `d` comes from the branch of the lookup result `-1`, which is the
result exactly for the names the registry does not know. -/
theorem task_code_string_roundtrip (g0 g1 g : globals) (s : String) (type pri pool r : Int)
    (calls : List api_call) (d : Int)
    (hreg : dsn_task_code_register g0 s type pri pool = Except.ok (r, g1))
    (hcalls : api_calls g1 calls = Except.ok g) :
    dsn_task_code_to_string g (dsn_task_code_from_string g s d) = some s ∧
    dsn_task_code_from_string g s d = r ∧
    (∀ (t : String) (e : Int),
      (g.task_codes.get_id t = -1 ↔ t ∉ g.task_codes.names) ∧
      (t ∉ g.task_codes.names → dsn_task_code_from_string g t e = e) ∧
      (t ∈ g.task_codes.names →
        dsn_task_code_from_string g t e = g.task_codes.get_id t ∧
        g.task_codes.get_id t ≠ -1 ∧
        dsn_task_code_to_string g (dsn_task_code_from_string g t e) = some t)) := by
  have hgen : ∀ (t : String) (e : Int), t ∈ g.task_codes.names →
      dsn_task_code_from_string g t e = g.task_codes.get_id t ∧
      g.task_codes.get_id t ≠ -1 ∧
      dsn_task_code_to_string g (dsn_task_code_from_string g t e) = some t := by
    intro t e ht
    have hne : g.task_codes.get_id t ≠ -1 := by
      have := (get_id_of_mem g.task_codes t ht).2
      omega
    have hf : dsn_task_code_from_string g t e = g.task_codes.get_id t := by
      simp [dsn_task_code_from_string, hne]
    exact ⟨hf, hne, by rw [hf]; exact get_name_get_id g.task_codes t ht⟩
  -- the registration
  have hc : g0.dsn_all.is_config_completed = false := by
    cases hcc : g0.dsn_all.is_config_completed with
    | false => rfl
    | true => simp [task_code_register_refused g0 s type pri pool hcc] at hreg
  rw [task_code_register_passes g0 s type pri pool hc] at hreg
  simp only [Except.ok.injEq, Prod.mk.injEq] at hreg
  obtain ⟨hr, hg1⟩ := hreg
  have hn1 : g1.task_codes = (g0.task_codes.register_id s).2 := by
    rw [← hg1, register_task_code_keeps_names]
  obtain ⟨_, _, hmem1⟩ := register_id_names g0.task_codes s
  have hs1 : s ∈ g1.task_codes.names := by rw [hn1]; exact hmem1
  obtain ⟨extra, hext⟩ := api_calls_append_names calls g1 g hcalls
  have hs : s ∈ g.task_codes.names := by rw [hext]; exact List.mem_append_left _ hs1
  obtain ⟨hf, _, hts⟩ := hgen s d hs
  refine ⟨hts, ?_, ?_⟩
  · rw [hf, (get_id_of_mem g.task_codes s hs).1, hext, List.indexOf_append_of_mem hs1,
      ← (get_id_of_mem g1.task_codes s hs1).1, hn1, (get_id_register_id g0.task_codes s).1, hr]
  · intro t e
    refine ⟨get_id_eq_neg_one_iff g.task_codes t, ?_, hgen t e⟩
    intro ht
    simp [dsn_task_code_from_string, (get_id_eq_neg_one_iff g.task_codes t).mpr ht]

/-- C12 at a process that registers `RPC_A` and `RPC_B` and then sets a
priority. -/
theorem task_code_string_roundtrip_witness :
    ∃ r g1 g, dsn_task_code_register globals.initial "RPC_A" 1 1 0 = Except.ok (r, g1) ∧
      api_calls g1 [api_call.task_code_register "RPC_B" 0 2 0,
        api_call.task_code_set_priority 1 3] = Except.ok g ∧
      dsn_task_code_to_string g (dsn_task_code_from_string g "RPC_A" 7) = some "RPC_A" ∧
      dsn_task_code_from_string g "RPC_A" 7 = r := by
  refine ⟨_, _, _, rfl, rfl, ?_⟩
  have h := task_code_string_roundtrip globals.initial _ _ "RPC_A" 1 1 0 _
    [api_call.task_code_register "RPC_B" 0 2 0, api_call.task_code_set_priority 1 3] 7 rfl rfl
  exact ⟨h.1, h.2.1⟩

/-! ## C13 -/

theorem deref_get_ptr (g : globals) (code : Int) :
    task_spec.deref g (task_spec.get_ptr g code) = task_spec.get g code := by
  unfold task_spec.deref task_spec.get_ptr
  cases h : task_spec.get g code <;> simp [h]

/-- C13, amended: when `run()` has loaded the configuration, then at the end of
its loop (and whatever `spec.init()` returns afterwards) the table
`dsn_all.task_specs` is the table as it was at entry followed by
`dsn_task_code_max() + 1` new entries, the `i`-th of them being the pointer
`task_spec::get(i)`, which points to the specification of task code `i`; the
entries from before keep their places. So in the first `run()` of a process,
where the table is empty at entry, the table has exactly
`dsn_task_code_max() + 1` entries, and for every `i` from `0` to
`dsn_task_code_max()` entry `i` is the specification of task code `i`. -/
theorem run_appends_task_specs (g : globals) (cfg : List (String × List String))
    (init_ok : Bool) :
    (run_config g (some cfg) init_ok).2.dsn_all.task_specs =
      g.dsn_all.task_specs ++
        (List.range (dsn_task_code_max (run_config g (some cfg) init_ok).2 + 1).toNat).map
          (fun (i : Nat) => task_spec.get_ptr (run_config g (some cfg) init_ok).2 (i : Int)) ∧
    ((run_config g (some cfg) init_ok).2.dsn_all.task_specs.length : Int) =
      (g.dsn_all.task_specs.length : Int) +
        (dsn_task_code_max (run_config g (some cfg) init_ok).2 + 1) ∧
    (∀ j : Nat, j < g.dsn_all.task_specs.length →
      (run_config g (some cfg) init_ok).2.dsn_all.task_specs[j]? = g.dsn_all.task_specs[j]?) ∧
    (∀ i : Nat, (i : Int) ≤ dsn_task_code_max (run_config g (some cfg) init_ok).2 →
      (run_config g (some cfg) init_ok).2.dsn_all.task_specs[g.dsn_all.task_specs.length + i]? =
        some (task_spec.get_ptr (run_config g (some cfg) init_ok).2 i) ∧
      task_spec.deref (run_config g (some cfg) init_ok).2
          (task_spec.get_ptr (run_config g (some cfg) init_ok).2 i) =
        task_spec.get (run_config g (some cfg) init_ok).2 i) ∧
    (g.dsn_all.task_specs = [] →
      ((run_config g (some cfg) init_ok).2.dsn_all.task_specs.length : Int) =
        dsn_task_code_max (run_config g (some cfg) init_ok).2 + 1 ∧
      ∀ i : Nat, (i : Int) ≤ dsn_task_code_max (run_config g (some cfg) init_ok).2 →
        (run_config g (some cfg) init_ok).2.dsn_all.task_specs[i]? =
          some (task_spec.get_ptr (run_config g (some cfg) init_ok).2 i) ∧
        task_spec.deref (run_config g (some cfg) init_ok).2
            (task_spec.get_ptr (run_config g (some cfg) init_ok).2 i) =
          task_spec.get (run_config g (some cfg) init_ok).2 i) := by
  have hmax : dsn_task_code_max (run_config g (some cfg) init_ok).2 = dsn_task_code_max g := by
    cases init_ok <;> rfl
  have hptr : ∀ c, task_spec.get_ptr (run_config g (some cfg) init_ok).2 c =
      task_spec.get_ptr g c := by
    intro c
    cases init_ok <;> rfl
  have hn : (dsn_task_code_max g + 1).toNat = g.task_codes.names.length := by
    simp [dsn_task_code_max, customized_id_mgr.max_value]
  have hspecs : (run_config g (some cfg) init_ok).2.dsn_all.task_specs =
      g.dsn_all.task_specs ++ (List.range g.task_codes.names.length).map
        (fun (i : Nat) => task_spec.get_ptr g (i : Int)) := by
    cases init_ok <;> simp [run_config, hn]
  have hlen : ((run_config g (some cfg) init_ok).2.dsn_all.task_specs.length : Int) =
      (g.dsn_all.task_specs.length : Int) + (dsn_task_code_max g + 1) := by
    rw [hspecs]
    simp [dsn_task_code_max, customized_id_mgr.max_value]
  have hnew : ∀ i : Nat, (i : Int) ≤ dsn_task_code_max g →
      (run_config g (some cfg) init_ok).2.dsn_all.task_specs[g.dsn_all.task_specs.length + i]? =
        some (task_spec.get_ptr g i) := by
    intro i hi
    have hlt : i < g.task_codes.names.length := by
      simp only [dsn_task_code_max, customized_id_mgr.max_value] at hi
      omega
    rw [hspecs, List.getElem?_append_right (Nat.le_add_right _ _), Nat.add_sub_cancel_left,
      List.getElem?_map, List.getElem?_range hlt]
    rfl
  simp only [hmax, hptr]
  refine ⟨?_, hlen, ?_, ?_, ?_⟩
  · rw [hspecs, hn]
  · intro j hj
    rw [hspecs, List.getElem?_append_left hj]
  · intro i hi
    exact ⟨hnew i hi, by rw [← hptr]; exact deref_get_ptr _ _⟩
  · intro h
    refine ⟨?_, ?_⟩
    · rw [hlen, h]
      simp
    · intro i hi
      have := hnew i hi
      rw [h] at this
      simp only [List.length_nil, Nat.zero_add] at this
      exact ⟨this, by rw [← hptr]; exact deref_get_ptr _ _⟩

/-- C13 fails for a `run()` that is not the first of the process. A process
registers two task codes and calls `dsn_run_config`; the configuration loads,
the loop fills the table with the two entries and `spec.init()` fails, so
`run()` returns `false`. A second call of `dsn_run_config` appends two entries
more: the table has 4 entries, and `dsn_task_code_max() + 1` is 2. When the
process registers a third code between the two calls, the table has 5 entries,
`dsn_task_code_max() + 1` is 3, and entry 2 points to the specification of
code 0, not of code 2. The table also has 4 entries when the first `run()`
completed the configuration. -/
theorem second_run_appends_task_specs :
    run_config globals.two_task_codes (some []) false = (false, globals.failed_run) ∧
    globals.failed_run.dsn_all.task_specs = [some 0, some 1] ∧
    (run_config globals.failed_run (some []) true).1 = true ∧
    (run_config globals.failed_run (some []) true).2.dsn_all.task_specs =
      [some 0, some 1, some 0, some 1] ∧
    dsn_task_code_max (run_config globals.failed_run (some []) true).2 + 1 = 2 ∧
    ((run_config globals.failed_run (some []) true).2.dsn_all.task_specs.length : Int) ≠
      dsn_task_code_max (run_config globals.failed_run (some []) true).2 + 1 ∧
    dsn_task_code_register globals.failed_run "RPC_C" 1 1 0 =
      Except.ok (2, globals.late_registered) ∧
    (run_config globals.late_registered (some []) true).1 = true ∧
    (run_config globals.late_registered (some []) true).2.dsn_all.task_specs =
      [some 0, some 1, some 0, some 1, some 2] ∧
    dsn_task_code_max (run_config globals.late_registered (some []) true).2 + 1 = 3 ∧
    (run_config globals.late_registered (some []) true).2.dsn_all.task_specs[2]? =
      some (some 0) ∧
    task_spec.get_ptr (run_config globals.late_registered (some []) true).2 2 = some 2 ∧
    (run_config (run_config globals.two_task_codes (some []) true).2
      (some []) true).2.dsn_all.task_specs = [some 0, some 1, some 0, some 1] := by
  refine ⟨rfl, rfl, rfl, rfl, rfl, by decide, rfl, rfl, rfl, rfl, rfl, rfl, rfl⟩

/-! ## C14 -/

/-- C14: for a task whose code has the kind `TASK_TYPE_RPC_RESPONSE`,
`dsn_rpc_call` returns; the task then has the given tracker, its own request
has the given server as `server_address`, nothing else of the task or of the
request is changed, and the request and the task have been handed to the RPC
engine by exactly one `call`. For a task of another kind the assertion fails,
and the task and its request are left as they were. -/
theorem rpc_call_hands_request (server : dsn_address_t) (task : rpc_response_task)
    (tracker : Option Nat) :
    (task.spec.type = TASK_TYPE_RPC_RESPONSE →
      ∃ t, dsn_rpc_call server task tracker =
          Except.ok (t, [engine_event.rpc_call t.request (some t)]) ∧
        t.tracker = tracker ∧
        t.request.server_address = server ∧
        t.request.id = task.request.id ∧ t.request.refs = task.request.refs ∧
        t.response = task.response ∧ t.error = task.error ∧ t.refs = task.refs ∧
        t.spec = task.spec) ∧
    (task.spec.type ≠ TASK_TYPE_RPC_RESPONSE →
      ∃ e, dsn_rpc_call server task tracker = Except.error e) := by
  constructor
  · intro h
    exact ⟨{ task with tracker := tracker
                       request := { task.request with server_address := server } },
      by simp [dsn_rpc_call, h], rfl, rfl, rfl, rfl, rfl, rfl, rfl, rfl⟩
  · intro h
    exact ⟨⟨""⟩, by simp only [dsn_rpc_call, h, if_false]⟩

/-- C14 at a response task and at a task of kind 2. -/
theorem rpc_call_hands_request_witness :
    (∃ t, dsn_rpc_call ⟨10, 80⟩
        { request := ⟨5, ⟨0, 0⟩, 1⟩, response := none, error := 0, refs := 1 } (some 4) =
          Except.ok (t, [engine_event.rpc_call t.request (some t)]) ∧
        t.tracker = some 4 ∧ t.request.server_address = ⟨10, 80⟩) ∧
    (∃ e, dsn_rpc_call ⟨10, 80⟩
        { request := ⟨5, ⟨0, 0⟩, 1⟩, response := none, error := 0, refs := 1,
          spec := ⟨2, 0, 0⟩ } (some 4) = Except.error e) := by
  constructor
  · obtain ⟨t, h1, h2, h3, _⟩ := (rpc_call_hands_request ⟨10, 80⟩
      { request := ⟨5, ⟨0, 0⟩, 1⟩, response := none, error := 0, refs := 1 } (some 4)).1 rfl
    exact ⟨t, h1, h2, h3⟩
  · exact (rpc_call_hands_request ⟨10, 80⟩
      { request := ⟨5, ⟨0, 0⟩, 1⟩, response := none, error := 0, refs := 1,
        spec := ⟨2, 0, 0⟩ } (some 4)).2 (by decide)

/-! ## C15 -/

/-- C15: `dsn_rpc_forward(request, addr)` creates one response message for the
request, marshals `addr` into it, and sends it by one `reply` with the error
`ERR_FORWARD_TO_OTHERS`; these three are all it does, so it hands no `call` to
the RPC engine, to `addr` or to any other address. -/
theorem rpc_forward_replies_once (create_response : message_ex → message_ex)
    (ERR_FORWARD_TO_OTHERS : Int) (request : message_ex) (addr : dsn_address_t) :
    dsn_rpc_forward create_response ERR_FORWARD_TO_OTHERS request addr =
      [engine_event.msg_create_response request,
       engine_event.marshall (create_response request) addr,
       engine_event.rpc_reply (create_response request) ERR_FORWARD_TO_OTHERS] ∧
    (∀ msg task, engine_event.rpc_call msg task ∉
      dsn_rpc_forward create_response ERR_FORWARD_TO_OTHERS request addr) ∧
    (∀ msg err, engine_event.rpc_reply msg err ∈
        dsn_rpc_forward create_response ERR_FORWARD_TO_OTHERS request addr →
      msg = create_response request ∧ err = ERR_FORWARD_TO_OTHERS) := by
  refine ⟨rfl, ?_, ?_⟩
  · intro msg task h
    simp [dsn_rpc_forward] at h
  · intro msg err h
    simpa [dsn_rpc_forward] using h

/-! ## C16 -/

/-- C16: `dsn_file_read` and `dsn_file_write` give the AIO task the given
tracker and the request fields `buffer`, `buffer_size = count`, `file`,
`file_offset = offset` and `engine = nullptr`, with the kind `AIO_Read` for
the one and `AIO_Write` for the other, and hand the task to the disk engine
once, by `read` and by `write`; for equal arguments the two tasks differ in
the kind only. -/
theorem file_read_write_requests (file buffer : Nat) (count : Int) (offset : Nat)
    (cb : aio_task) (tracker : Option Nat) :
    (dsn_file_read file buffer count offset cb tracker).1 =
      ⟨tracker, ⟨buffer, count, none, file, offset, aio_type.AIO_Read⟩⟩ ∧
    (dsn_file_read file buffer count offset cb tracker).2 =
      [engine_event.disk_read ⟨tracker, ⟨buffer, count, none, file, offset, aio_type.AIO_Read⟩⟩] ∧
    (dsn_file_write file buffer count offset cb tracker).1 =
      ⟨tracker, ⟨buffer, count, none, file, offset, aio_type.AIO_Write⟩⟩ ∧
    (dsn_file_write file buffer count offset cb tracker).2 =
      [engine_event.disk_write
        ⟨tracker, ⟨buffer, count, none, file, offset, aio_type.AIO_Write⟩⟩] ∧
    (dsn_file_write file buffer count offset cb tracker).1 =
      { (dsn_file_read file buffer count offset cb tracker).1 with
        aio := { (dsn_file_read file buffer count offset cb tracker).1.aio with
                 type := aio_type.AIO_Write } } := by
  refine ⟨rfl, rfl, rfl, rfl, rfl⟩

/-! ## C17 -/

theorem push_source_files_names (names : List String) (rest : List (Option String))
    (h : ∀ n ∈ names, n ≠ "") :
    ∀ files, push_source_files (names.map some ++ none :: rest) files = some (files ++ names) := by
  induction names with
  | nil => intro files; simp [push_source_files]
  | cons n ns ih =>
      intro files
      have hn : n ≠ "" := h n (List.mem_cons_self _ _)
      have := ih (fun m hm => h m (List.mem_cons_of_mem _ hm)) (files ++ [n])
      show push_source_files (some n :: (ns.map some ++ none :: rest)) files = _
      simp only [push_source_files, hn, if_false]
      rw [this, List.append_assoc, List.singleton_append]

/-- C17: `dsn_file_copy_remote_directory` hands to the NFS service, once and
with the AIO task carrying the given tracker, a request with the given source
address, source directory, destination directory and overwrite flag and an
empty file list. `dsn_file_copy_remote_files`, for an array that holds the
non-empty names `names` and then a null pointer, returns and hands over, once,
the same request with the file list `names`, in the given order. -/
theorem remote_copy_requests (remote : dsn_address_t) (source_dir dest_dir : String)
    (overwrite : Bool) (cb : aio_task) (tracker : Option Nat) (names : List String)
    (rest : List (Option String)) (h : ∀ n ∈ names, n ≠ "") :
    dsn_file_copy_remote_directory remote source_dir dest_dir overwrite cb tracker =
      ({ cb with tracker := tracker },
       [engine_event.nfs_call ⟨remote, source_dir, [], dest_dir, overwrite⟩
          { cb with tracker := tracker }]) ∧
    dsn_file_copy_remote_files remote source_dir (names.map some ++ none :: rest) dest_dir
        overwrite cb tracker =
      some ({ cb with tracker := tracker },
        [engine_event.nfs_call ⟨remote, source_dir, names, dest_dir, overwrite⟩
          { cb with tracker := tracker }]) := by
  refine ⟨rfl, ?_⟩
  have hp := push_source_files_names names rest h []
  simp only [List.nil_append] at hp
  simp only [dsn_file_copy_remote_files, remote_copy_request.new, hp]

/-- C17 at an array of two names. -/
theorem remote_copy_requests_witness :
    dsn_file_copy_remote_files ⟨10, 80⟩ "src" [some "a.txt", some "b.txt", none] "dst" true
        ⟨none, ⟨0, 0, none, 0, 0, aio_type.AIO_Read⟩⟩ (some 3) =
      some (⟨some 3, ⟨0, 0, none, 0, 0, aio_type.AIO_Read⟩⟩,
        [engine_event.nfs_call ⟨⟨10, 80⟩, "src", ["a.txt", "b.txt"], "dst", true⟩
          ⟨some 3, ⟨0, 0, none, 0, 0, aio_type.AIO_Read⟩⟩]) :=
  (remote_copy_requests ⟨10, 80⟩ "src" "dst" true
    ⟨none, ⟨0, 0, none, 0, 0, aio_type.AIO_Read⟩⟩ (some 3) ["a.txt", "b.txt"] []
    (by decide)).2

/-! ## C18 -/

/-- The loop writes the keys with index from `i` up to `i + n` and leaves the
other entries of the array as they are. -/
theorem copy_keys_spec (keys : List String) :
    ∀ (n i : Nat) (buffers : List String), i + n ≤ keys.length → i + n ≤ buffers.length →
      ∃ b, copy_keys keys n i buffers = some b ∧ b.length = buffers.length ∧
        ∀ j, b[j]? = if i ≤ j ∧ j < i + n then keys[j]? else buffers[j]? := by
  intro n
  induction n with
  | zero =>
      intro i buffers _ _
      refine ⟨buffers, rfl, rfl, fun j => ?_⟩
      have : ¬ (i ≤ j ∧ j < i + 0) := by omega
      rw [if_neg this]
  | succ n ih =>
      intro i buffers hk hb
      have hik : i < keys.length := by omega
      have hib : i < buffers.length := by omega
      have hkey : keys[i]? = some keys[i] := List.getElem?_eq_getElem hik
      obtain ⟨b, h1, h2, h3⟩ := ih (i + 1) (buffers.set i keys[i]) (by omega)
        (by rw [List.length_set]; omega)
      refine ⟨b, ?_, by rw [h2, List.length_set], fun j => ?_⟩
      · simp only [copy_keys, hkey, hib, if_true]
        exact h1
      · rw [h3 j]
        by_cases hj : i = j
        · subst hj
          have c1 : ¬ (i + 1 ≤ i ∧ i < i + 1 + n) := by omega
          have c2 : i ≤ i ∧ i < i + (n + 1) := by omega
          rw [if_neg c1, if_pos c2, List.getElem?_set_self hib, hkey]
        · rw [List.getElem?_set_ne hj]
          by_cases hr : i + 1 ≤ j ∧ j < i + 1 + n
          · have c2 : i ≤ j ∧ j < i + (n + 1) := by omega
            rw [if_pos hr, if_pos c2]
          · have c2 : ¬ (i ≤ j ∧ j < i + (n + 1)) := by omega
            rw [if_neg hr, if_neg c2]

theorem config_get_all_keys_eq (g : globals) (sect : String) (buffers : List String)
    (bc : Int) (m : Nat) (b : List String)
    (hm : (if bc > to_int ((configuration_get_all_keys g.dsn_all.config sect).length : Int)
      then to_int ((configuration_get_all_keys g.dsn_all.config sect).length : Int) else bc) =
      (m : Int))
    (h1 : copy_keys (configuration_get_all_keys g.dsn_all.config sect) m 0 buffers = some b) :
    dsn_config_get_all_keys g sect buffers bc =
      some (to_int ((configuration_get_all_keys g.dsn_all.config sect).length : Int), b,
        (m : Int)) := by
  unfold dsn_config_get_all_keys
  simp only []
  rw [hm, Int.toNat_ofNat, h1]

/-- C18: for a section whose `k` keys the configuration lists as `keys` (`k`
fitting an `int`) and a buffer of capacity `c` passed with
`*buffer_count = c`, `dsn_config_get_all_keys` returns `k`, leaves `min(c, k)`
in `*buffer_count`, has written key `j` to entry `j` of the buffer for every
`j < min(c, k)`, and has left every other entry of the buffer as it was. -/
theorem config_get_all_keys_result (g : globals) (sect : String) (buffers : List String)
    (c : Nat)
    (hk : ((configuration_get_all_keys g.dsn_all.config sect).length : Int) < 2147483648)
    (hc : c ≤ buffers.length) :
    ∃ b, dsn_config_get_all_keys g sect buffers c =
        some (((configuration_get_all_keys g.dsn_all.config sect).length : Int), b,
          ((min c (configuration_get_all_keys g.dsn_all.config sect).length : Nat) : Int)) ∧
      b.length = buffers.length ∧
      ∀ j, b[j]? =
        if j < min c (configuration_get_all_keys g.dsn_all.config sect).length
        then (configuration_get_all_keys g.dsn_all.config sect)[j]? else buffers[j]? := by
  have hcast := tools.to_int_of_nat_lt _ hk
  have hclamp : (if (c : Int) >
        to_int ((configuration_get_all_keys g.dsn_all.config sect).length : Int)
      then to_int ((configuration_get_all_keys g.dsn_all.config sect).length : Int)
      else (c : Int)) =
      ((min c (configuration_get_all_keys g.dsn_all.config sect).length : Nat) : Int) := by
    rw [hcast]
    split <;> omega
  obtain ⟨b, h1, h2, h3⟩ := copy_keys_spec (configuration_get_all_keys g.dsn_all.config sect)
    (min c (configuration_get_all_keys g.dsn_all.config sect).length) 0 buffers
    (by omega) (by omega)
  refine ⟨b, ?_, h2, fun j => ?_⟩
  · have h := config_get_all_keys_eq g sect buffers (c : Int) _ b hclamp h1
    rw [hcast] at h
    exact h
  · rw [h3 j]
    by_cases hj : j < min c (configuration_get_all_keys g.dsn_all.config sect).length
    · have h0 : 0 ≤ j ∧
          j < 0 + min c (configuration_get_all_keys g.dsn_all.config sect).length := by omega
      rw [if_pos hj, if_pos h0]
    · have h0 : ¬ (0 ≤ j ∧
          j < 0 + min c (configuration_get_all_keys g.dsn_all.config sect).length) := by omega
      rw [if_neg hj, if_neg h0]

/-- C18 at a section with two keys and a buffer of capacity 3, and then of
capacity 1. -/
theorem config_get_all_keys_result_witness :
    (∃ b, dsn_config_get_all_keys globals.configured "core" ["x", "y", "z"] 3 =
        some (2, b, 2) ∧ b.length = 3 ∧ b[0]? = some "tool" ∧ b[2]? = some "z") ∧
    (∃ b, dsn_config_get_all_keys globals.configured "core" ["x"] 1 = some (2, b, 1) ∧
        b.length = 1 ∧ b[0]? = some "tool") := by
  obtain ⟨b3, h1, h2, h3⟩ := config_get_all_keys_result globals.configured "core"
    ["x", "y", "z"] 3 (by decide) (by decide)
  obtain ⟨b1, k1, k2, k3⟩ := config_get_all_keys_result globals.configured "core" ["x"] 1
    (by decide) (by decide)
  exact ⟨⟨b3, h1, h2, h3 0, h3 2⟩, ⟨b1, k1, k2, k3 0⟩⟩

/-! ## C19 -/

/-- C19 as stated fails: when the last argument is an option, no value follows
its last occurrence, and `dsn_run` runs with the value of an earlier
occurrence (here `replica`). -/
theorem dsn_run_trailing_option :
    dsn_run (fun _ => 0) ["dsn", "config.ini", "-app", "replica", "-app"] false =
      dsn_run_outcome.run ⟨"config.ini", none, false, "replica", -1⟩ ∧
    ["dsn", "config.ini", "-app", "replica", "-app"][4]? = some "-app" ∧
    ["dsn", "config.ini", "-app", "replica", "-app"][5]? = none := by
  refine ⟨by decide, rfl, rfl⟩

theorem parse_flag_value (atoi : String → Int) (o : run_option) (v : String)
    (rest : List String) (opt : run_options) :
    parse_run_options atoi (o.flag :: v :: rest) opt =
      parse_run_options atoi rest (opt.set atoi (o, v)) := by
  cases o <;> simp [parse_run_options, run_option.flag, run_options.set]

theorem parse_flag_last (atoi : String → Int) (o : run_option) (opt : run_options) :
    parse_run_options atoi [o.flag] opt = some opt := by
  cases o <;> simp [parse_run_options, run_option.flag]

theorem parse_unknown (atoi : String → Int) (x : String) (rest : List String)
    (opt : run_options) (h : ∀ o : run_option, x ≠ o.flag) :
    parse_run_options atoi (x :: rest) opt = none := by
  have h1 : x ≠ "-cargs" := h run_option.cargs
  have h2 : x ≠ "-app" := h run_option.app
  have h3 : x ≠ "-app_index" := h run_option.app_index
  cases rest <;> simp [parse_run_options, h1, h2, h3]

theorem parse_option_args (atoi : String → Int) (opts : List (run_option × String))
    (tail : List String) :
    ∀ opt, parse_run_options atoi (option_args opts ++ tail) opt =
      parse_run_options atoi tail (opts.foldl (run_options.set atoi) opt) := by
  induction opts with
  | nil => intro opt; rfl
  | cons p ps ih =>
      intro opt
      obtain ⟨o, v⟩ := p
      show parse_run_options atoi (o.flag :: v :: (option_args ps ++ tail)) opt = _
      rw [parse_flag_value, ih]
      rfl

theorem last_value_append (o : run_option) (ps : List (run_option × String))
    (p : run_option × String) :
    last_value o (ps ++ [p]) = if p.1 = o then some p.2 else last_value o ps := by
  by_cases h : p.1 = o
  · simp [last_value, List.find?_cons, h]
  · simp [last_value, List.find?_cons, h]

/-- The variables after the loop hold, for each option, the value that follows
its last occurrence, and what they held before for an absent option. -/
theorem foldl_set_last_value (atoi : String → Int) (opts : List (run_option × String))
    (opt : run_options) :
    (opts.foldl (run_options.set atoi) opt).config_args =
      (last_value run_option.cargs opts).getD opt.config_args ∧
    (opts.foldl (run_options.set atoi) opt).app_name =
      (last_value run_option.app opts).getD opt.app_name ∧
    (opts.foldl (run_options.set atoi) opt).app_index =
      ((last_value run_option.app_index opts).map atoi).getD opt.app_index := by
  induction opts using List.reverseRecOn with
  | nil => exact ⟨rfl, rfl, rfl⟩
  | append_singleton ps p ih =>
      obtain ⟨h1, h2, h3⟩ := ih
      obtain ⟨o, v⟩ := p
      simp only [List.foldl_append, List.foldl_cons, List.foldl_nil, last_value_append]
      cases o <;> simp [run_options.set, h1, h2, h3]

/-- Every list of arguments is made of options with their values, followed by
nothing, by one option without a value, or by an argument that is no option. -/
theorem args_shape : ∀ (n : Nat) (args : List String), args.length ≤ n →
    ∃ opts : List (run_option × String),
      (∃ trailing : Option run_option,
        args = option_args opts ++ (trailing.map run_option.flag).toList) ∨
      (∃ x rest, (∀ o : run_option, x ≠ o.flag) ∧ args = option_args opts ++ x :: rest) := by
  intro n
  induction n with
  | zero =>
      intro args h
      have : args = [] := List.length_eq_zero.mp (by omega)
      subst this
      exact ⟨[], Or.inl ⟨none, rfl⟩⟩
  | succ n ih =>
      intro args h
      match args, h with
      | [], _ => exact ⟨[], Or.inl ⟨none, rfl⟩⟩
      | a :: rest, h =>
          by_cases ha : ∃ o : run_option, a = o.flag
          · obtain ⟨o, rfl⟩ := ha
            match rest, h with
            | [], _ => exact ⟨[], Or.inl ⟨some o, rfl⟩⟩
            | v :: rest1, h =>
                have hl : rest1.length ≤ n := by
                  simp only [List.length_cons] at h
                  omega
                obtain ⟨opts, hs⟩ := ih rest1 hl
                refine ⟨(o, v) :: opts, ?_⟩
                rcases hs with ⟨t, ht⟩ | ⟨x, r, hx, hr⟩
                · exact Or.inl ⟨t, by rw [ht]; rfl⟩
                · exact Or.inr ⟨x, r, hx, by rw [hr]; rfl⟩
          · refine ⟨[], Or.inr ⟨a, rest, ?_, rfl⟩⟩
            intro o ho
            exact ha ⟨o, ho⟩

theorem dsn_run_options (atoi : String → Int) (prog config : String) (sleep : Bool)
    (args : List String) (opt : run_options)
    (h : parse_run_options atoi args ⟨"", "", -1⟩ = some opt) :
    dsn_run atoi (prog :: config :: args) sleep =
      dsn_run_outcome.run
        ⟨config, if opt.config_args.length > 0 then some opt.config_args else none,
         sleep, opt.app_name, opt.app_index⟩ := by
  simp only [dsn_run, h]

/-- C19, amended: with fewer than two arguments `dsn_run` exits with status 1.
With more, the arguments after `config` are read as options, each followed by
its value; an option that is the last argument has no value and is ignored.
For arguments of this form `dsn_run` calls `run()` with `config = argv[1]`
and, for each option with a value, the value that follows its last such
occurrence (`app_index` converted by `atoi`, empty config arguments passed as
null), using the defaults for the other options. When an argument that is none
of `-cargs`, `-app`, `-app_index` stands where an option is read, it exits
with status 1. Every list of arguments has one of these two forms, so the
parse ends for every `argv`. -/
theorem dsn_run_command_line (atoi : String → Int) (prog config : String) (sleep : Bool)
    (opts : List (run_option × String)) :
    (∀ argv : List String, argv.length < 2 →
      dsn_run atoi argv sleep = dsn_run_outcome.exit 1) ∧
    (∀ trailing : Option run_option,
      dsn_run atoi (prog :: config ::
          (option_args opts ++ (trailing.map run_option.flag).toList)) sleep =
        dsn_run_outcome.run (run_call_of atoi config sleep opts)) ∧
    (∀ (x : String) (rest : List String), (∀ o : run_option, x ≠ o.flag) →
      dsn_run atoi (prog :: config :: (option_args opts ++ x :: rest)) sleep =
        dsn_run_outcome.exit 1) ∧
    (∀ args : List String, ∃ opts1 : List (run_option × String),
      (∃ trailing : Option run_option,
        args = option_args opts1 ++ (trailing.map run_option.flag).toList) ∨
      (∃ x rest, (∀ o : run_option, x ≠ o.flag) ∧ args = option_args opts1 ++ x :: rest)) := by
  refine ⟨?_, ?_, ?_, fun args => args_shape args.length args (Nat.le_refl _)⟩
  · intro argv h
    match argv, h with
    | [], _ => rfl
    | [_], _ => rfl
    | _ :: _ :: _, h => simp only [List.length_cons] at h; omega
  · intro trailing
    have hp : parse_run_options atoi (option_args opts ++ (trailing.map run_option.flag).toList)
        ⟨"", "", -1⟩ = some (opts.foldl (run_options.set atoi) ⟨"", "", -1⟩) := by
      rw [parse_option_args]
      cases trailing with
      | none => rfl
      | some o => exact parse_flag_last atoi o _
    rw [dsn_run_options atoi prog config sleep _ _ hp]
    obtain ⟨h1, h2, h3⟩ := foldl_set_last_value atoi opts ⟨"", "", -1⟩
    simp only [run_call_of, h1, h2, h3]
    cases hl : last_value run_option.cargs opts with
    | none => simp
    | some v => simp
  · intro x rest hx
    have hp : parse_run_options atoi (option_args opts ++ x :: rest) ⟨"", "", -1⟩ = none := by
      rw [parse_option_args]
      exact parse_unknown atoi x rest _ hx
    simp only [dsn_run, hp]

/-! ## C20 -/

theorem is_started_iff (app_name : String) (app_index : Int) (sp : service_app_spec) :
    is_started app_name app_index sp = true ↔
      sp.run = true ∧ (app_name = "" ∨
        (sp.config_section = "apps." ++ app_name ∧ app_index = -1) ∨
        (sp.config_section = "apps." ++ app_name ∧ app_index = sp.index)) := by
  simp [is_started, or_assoc]

theorem start_apps_eq_filter (app_name : String) (app_index : Int)
    (specs : List service_app_spec) :
    ∀ started, start_apps app_name app_index specs started =
      started ++ specs.filter (is_started app_name app_index) := by
  induction specs with
  | nil => intro started; simp [start_apps]
  | cons sp rest ih =>
      intro started
      by_cases hs : is_started app_name app_index sp = true
      · have hs1 := (is_started_iff app_name app_index sp).mp hs
        obtain ⟨hrun, hcond⟩ := hs1
        have hstep : start_apps app_name app_index (sp :: rest) started =
            start_apps app_name app_index rest (started ++ [sp]) := by
          rcases hcond with h | ⟨h1, h2⟩ | ⟨h1, h2⟩
          · simp [start_apps, hrun, h]
          · by_cases hn : app_name = ""
            · simp [start_apps, hrun, hn]
            · simp [start_apps, hrun, hn, h1, h2]
          · by_cases hn : app_name = ""
            · simp [start_apps, hrun, hn]
            · simp [start_apps, hrun, hn, h1, h2]
        rw [hstep, ih, List.filter_cons_of_pos hs]
        simp
      · have hskip : start_apps app_name app_index (sp :: rest) started =
            start_apps app_name app_index rest started := by
          have hn := hs
          rw [is_started_iff] at hn
          cases hrun : sp.run with
          | false => simp [start_apps, hrun]
          | true =>
              have hc : ¬ (app_name = "" ∨
                  (sp.config_section = "apps." ++ app_name ∧ app_index = -1) ∨
                  (sp.config_section = "apps." ++ app_name ∧ app_index = sp.index)) :=
                fun h => hn ⟨hrun, h⟩
              have h0 : app_name ≠ "" := fun h => hc (Or.inl h)
              by_cases hsec : "apps." ++ app_name = sp.config_section
              · have h1 : app_index ≠ -1 := fun h => hc (Or.inr (Or.inl ⟨hsec.symm, h⟩))
                have h2 : app_index ≠ sp.index := fun h => hc (Or.inr (Or.inr ⟨hsec.symm, h⟩))
                simp [start_apps, hrun, h0, hsec, h1, h2]
              · simp [start_apps, hrun, h0, hsec]
        rw [hskip, ih, List.filter_cons_of_neg hs]

/-- C20: the app specifications that the loop of `run()` hands to
`start_node` are, in the order of the specification list, exactly those whose
run flag is set and for which `app_name` is empty, or the config section
equals `"apps." + app_name` and `app_index` is -1, or the config section equals
`"apps." + app_name` and `app_index` equals the index of the specification. -/
theorem run_starts_selected_apps (app_name : String) (app_index : Int)
    (specs : List service_app_spec) :
    start_apps app_name app_index specs [] = specs.filter (is_started app_name app_index) ∧
    (∀ sp, sp ∈ start_apps app_name app_index specs [] ↔
      sp ∈ specs ∧ sp.run = true ∧ (app_name = "" ∨
        (sp.config_section = "apps." ++ app_name ∧ app_index = -1) ∨
        (sp.config_section = "apps." ++ app_name ∧ app_index = sp.index))) ∧
    List.Sublist (start_apps app_name app_index specs []) specs := by
  have h := start_apps_eq_filter app_name app_index specs []
  simp only [List.nil_append] at h
  refine ⟨h, ?_, ?_⟩
  · intro sp
    rw [h, List.mem_filter, is_started_iff]
  · rw [h]
    exact List.filter_sublist specs

/-! ## C22 -/

theorem names_before_terminator_none (rest : List (Option String)) :
    names_before_terminator (none :: rest) = [] := by
  simp [names_before_terminator]

theorem names_before_terminator_empty (rest : List (Option String)) :
    names_before_terminator (some "" :: rest) = [] := by
  simp [names_before_terminator]

theorem names_before_terminator_cons (name : String) (rest : List (Option String))
    (h : name ≠ "") :
    names_before_terminator (some name :: rest) = name :: names_before_terminator rest := by
  simp [names_before_terminator, List.takeWhile_cons, h]

/-- The loop over `source_files` pushes the names that precede the first null
pointer or empty string, when the array has one. -/
theorem push_source_files_leading_names (source_files : List (Option String)) :
    ∀ files, (∃ e ∈ source_files, e = none ∨ e = some "") →
      push_source_files source_files files =
        some (files ++ names_before_terminator source_files) := by
  induction source_files with
  | nil =>
      intro files h
      obtain ⟨e, he, _⟩ := h
      simp at he
  | cons e rest ih =>
      intro files h
      cases e with
      | none => simp [push_source_files, names_before_terminator_none]
      | some name =>
          by_cases hn : name = ""
          · subst hn
            simp [push_source_files, names_before_terminator_empty]
          · have hrest : ∃ e ∈ rest, e = none ∨ e = some "" := by
              obtain ⟨e, he, hterm⟩ := h
              rcases List.mem_cons.mp he with rfl | he
              · rcases hterm with h1 | h1
                · simp at h1
                · simp only [Option.some.injEq] at h1
                  exact absurd h1 hn
              · exact ⟨e, he, hterm⟩
            simp only [push_source_files, hn, if_false]
            rw [ih (files ++ [name]) hrest, names_before_terminator_cons name rest hn]
            simp

/-- C22: for an array `source_files` that holds a null pointer or an empty
string, `dsn_file_copy_remote_files` returns, and the file list of the request
it hands over is the longest prefix of `source_files` that precedes the first
null pointer or empty string; names that follow an empty string are not in
that prefix; and when the first entry is null or empty, the call does what
`dsn_file_copy_remote_directory` does with the other arguments: the same task
and the same request, with an empty file list. -/
theorem copy_remote_files_leading_names (remote : dsn_address_t) (source_dir dest_dir : String)
    (overwrite : Bool) (cb : aio_task) (tracker : Option Nat)
    (source_files : List (Option String))
    (h : ∃ e ∈ source_files, e = none ∨ e = some "") :
    dsn_file_copy_remote_files remote source_dir source_files dest_dir overwrite cb tracker =
      some ({ cb with tracker := tracker },
        [engine_event.nfs_call
          ⟨remote, source_dir, names_before_terminator source_files, dest_dir, overwrite⟩
          { cb with tracker := tracker }]) ∧
    (∀ (names : List String) (rest : List (Option String)), (∀ n ∈ names, n ≠ "") →
      names_before_terminator (names.map some ++ some "" :: rest) = names ∧
      names_before_terminator (names.map some ++ none :: rest) = names) ∧
    (∀ rest : List (Option String),
      dsn_file_copy_remote_files remote source_dir (none :: rest) dest_dir overwrite cb
          tracker =
        some (dsn_file_copy_remote_directory remote source_dir dest_dir overwrite cb tracker) ∧
      dsn_file_copy_remote_files remote source_dir (some "" :: rest) dest_dir overwrite cb
          tracker =
        some (dsn_file_copy_remote_directory remote source_dir dest_dir overwrite cb
          tracker)) := by
  refine ⟨?_, ?_, ?_⟩
  · have hp := push_source_files_leading_names source_files [] h
    simp only [List.nil_append] at hp
    simp only [dsn_file_copy_remote_files, remote_copy_request.new, hp]
  · intro names rest hne
    induction names with
    | nil => exact ⟨names_before_terminator_empty rest, names_before_terminator_none rest⟩
    | cons n ns ih =>
        have hn : n ≠ "" := hne n (List.mem_cons_self _ _)
        have := ih (fun m hm => hne m (List.mem_cons_of_mem _ hm))
        simp only [List.map_cons, List.cons_append, names_before_terminator_cons _ _ hn,
          this.1, this.2, and_self]
  · intro rest
    exact ⟨rfl, rfl⟩

/-- C22 at an array in which a name follows an empty string. -/
theorem copy_remote_files_leading_names_witness :
    dsn_file_copy_remote_files ⟨10, 80⟩ "src"
        [some "a.txt", some "b.txt", some "", some "c.txt", none] "dst" true
        ⟨none, ⟨0, 0, none, 0, 0, aio_type.AIO_Read⟩⟩ (some 3) =
      some (⟨some 3, ⟨0, 0, none, 0, 0, aio_type.AIO_Read⟩⟩,
        [engine_event.nfs_call ⟨⟨10, 80⟩, "src", ["a.txt", "b.txt"], "dst", true⟩
          ⟨some 3, ⟨0, 0, none, 0, 0, aio_type.AIO_Read⟩⟩]) :=
  (copy_remote_files_leading_names ⟨10, 80⟩ "src" "dst" true
    ⟨none, ⟨0, 0, none, 0, 0, aio_type.AIO_Read⟩⟩ (some 3)
    [some "a.txt", some "b.txt", some "", some "c.txt", none]
    ⟨none, by decide, Or.inl rfl⟩).1

/-! ## C23 -/

theorem substr0_eq_iff (name app_name : String) :
    substr0 name app_name.length = app_name ↔ ∃ rest : String, name = app_name ++ rest := by
  constructor
  · intro h
    have hd : name.data.take app_name.data.length = app_name.data :=
      congrArg String.data h
    refine ⟨⟨name.data.drop app_name.data.length⟩, String.ext ?_⟩
    rw [String.data_append]
    show name.data = app_name.data ++ name.data.drop app_name.data.length
    conv_lhs => rw [← List.take_append_drop app_name.data.length name.data]
    rw [hd]
  · rintro ⟨rest, rfl⟩
    apply String.ext
    show (app_name ++ rest).data.take app_name.data.length = app_name.data
    rw [String.data_append, List.take_left]

theorem mimic_matches_iff (app_name : String) (index : Int) (n : service_node) :
    mimic_matches app_name index n = true ↔ names_app app_name index n := by
  simp only [mimic_matches, names_app, Bool.or_eq_true, Bool.and_eq_true, beq_iff_eq,
    substr0_eq_iff]

/-- The node that the loop finds is the first one in node order that matches. -/
theorem mimic_find_some (app_name : String) (index : Int) (nodes : List (Int × service_node))
    (n : service_node) (h : mimic_find app_name index nodes = some n) :
    ∃ pre kv post, nodes = pre ++ kv :: post ∧ kv.2 = n ∧
      (∀ m ∈ pre, mimic_matches app_name index m.2 = false) ∧
      mimic_matches app_name index n = true := by
  induction nodes with
  | nil => simp [mimic_find] at h
  | cons kv rest ih =>
      by_cases hm : mimic_matches app_name index kv.2 = true
      · simp only [mimic_find, hm, if_true, Option.some.injEq] at h
        exact ⟨[], kv, rest, rfl, h, by simp, by rw [← h]; exact hm⟩
      · have hf : mimic_matches app_name index kv.2 = false := by simpa using hm
        simp only [mimic_find, hf, Bool.false_eq_true, if_false] at h
        obtain ⟨pre, kv1, post, hnodes, hkv, hpre, hmatch⟩ := ih h
        refine ⟨kv :: pre, kv1, post, by rw [hnodes]; rfl, hkv, ?_, hmatch⟩
        intro m hmem
        rcases List.mem_cons.mp hmem with rfl | hmem
        · exact hf
        · exact hpre m hmem

/-- C23: when a call of `dsn_mimic_app` from a thread that has no worker and is
attached to no node returns true, the thread is then attached to the first
node, in node order, whose name equals `app_name` or whose name starts with
`app_name` and whose index equals `index`; and a call repeated at once with
the same arguments returns true and leaves the thread attached to that node. -/
theorem mimic_app_idempotent (nodes : List (Int × service_node)) (tls tls1 : tls_dsn_context)
    (app_name : String) (index : Int)
    (hw : tls.worker = none) (hn : tls.node = none)
    (h : dsn_mimic_app nodes tls app_name index = Except.ok (true, tls1)) :
    (∃ pre kv post, nodes = pre ++ kv :: post ∧
      (∀ m ∈ pre, ¬ names_app app_name index m.2) ∧
      names_app app_name index kv.2 ∧
      tls1.node = some kv.2) ∧
    dsn_mimic_app nodes tls1 app_name index = Except.ok (true, tls1) := by
  simp only [dsn_mimic_app, hw, hn] at h
  cases hf : mimic_find app_name index nodes with
  | none => simp [hf] at h
  | some n =>
      simp only [hf, Except.ok.injEq, Prod.mk.injEq, true_and] at h
      subst h
      obtain ⟨pre, kv, post, hnodes, hkv, hpre, hmatch⟩ :=
        mimic_find_some app_name index nodes n hf
      refine ⟨⟨pre, kv, post, hnodes, ?_, ?_, by rw [hkv]⟩, ?_⟩
      · intro m hmem hnames
        have := hpre m hmem
        rw [(mimic_matches_iff app_name index m.2).mpr hnames] at this
        simp at this
      · rw [hkv]
        exact (mimic_matches_iff app_name index n).mp hmatch
      · simp only [dsn_mimic_app, hmatch, if_true]

/-- C23 at two nodes of the app `replica`: the call for index 2 attaches the
thread to the second node, and the repeated call keeps it there. -/
theorem mimic_app_idempotent_witness :
    ∃ tls1, dsn_mimic_app [(1, node_replica1), (2, node_replica2)] ⟨none, none⟩ "replica" 2 =
        Except.ok (true, tls1) ∧
      tls1.node = some node_replica2 ∧
      dsn_mimic_app [(1, node_replica1), (2, node_replica2)] tls1 "replica" 2 =
        Except.ok (true, tls1) := by
  refine ⟨⟨none, some node_replica2⟩, rfl, rfl, ?_⟩
  exact (mimic_app_idempotent [(1, node_replica1), (2, node_replica2)] ⟨none, none⟩
    ⟨none, some node_replica2⟩ "replica" 2 rfl rfl rfl).2

/-! ## C21 -/

/-- The array that `strncpy(dest, src, n)` fills has `n` bytes. -/
theorem strncpy_length (src : List Nat) (n : Nat) : (strncpy src n).length = n := by
  simp [strncpy]

/-- A source of fewer than `n` bytes is copied whole and followed by zero
bytes; a source of `n` bytes or more is cut after `n` bytes. -/
theorem strncpy_eq (src : List Nat) (n : Nat) :
    (src.length < n → strncpy src n = src ++ List.replicate (n - src.length) 0) ∧
    (n ≤ src.length → strncpy src n = src.take n) := by
  refine ⟨?_, ?_⟩
  · intro h
    rw [strncpy, List.take_append_eq_append_take, List.take_of_length_le (le_of_lt h),
      List.take_replicate]
    congr 2
    omega
  · intro h
    rw [strncpy, List.take_append_of_le_length h]

/-- The copy counts bytes, not characters: of the name `é1`, whose first
character has the two bytes 195 and 169, an array of two bytes receives those
two bytes, and an array of one byte the first of them. -/
theorem strncpy_counts_bytes :
    c_str "é1" = [195, 169, 49] ∧
    strncpy (c_str "é1") 2 = [195, 169] ∧
    strncpy (c_str "é1") 1 = [195] ∧
    strncpy (c_str "é1") 5 = [195, 169, 49, 0, 0] := by
  refine ⟨by decide, by decide, by decide, by decide⟩

/-- With room for all the nodes still to visit, the loop runs to its end and
the function returns `i + 1` for the final index `i`. -/
theorem get_all_apps_loop_large (size name_size type_size : Nat) (count : Int)
    (rest : List (Int × service_node)) :
    ∀ (i : Int) (info_buffer : List dsn_app_info), 0 ≤ i → i + rest.length ≤ count →
      count ≤ info_buffer.length →
      ∃ b, get_all_apps_loop size name_size type_size count rest i info_buffer =
          some (i + rest.length + 1, b) ∧ b.length = info_buffer.length := by
  induction rest with
  | nil =>
      intro i info_buffer _ _ _
      exact ⟨info_buffer, by simp [get_all_apps_loop], rfl⟩
  | cons kv rest ih =>
      intro i info_buffer h0 hc hb
      have hlen : ((kv :: rest).length : Int) = (rest.length : Int) + 1 := by simp
      rw [hlen] at hc
      have h1 : ¬ (i ≥ count) := by omega
      have h2 : i.toNat < info_buffer.length := by omega
      obtain ⟨b, hb1, hb2⟩ := ih (i + 1)
        (info_buffer.set i.toNat
          ⟨kv.2.app_context_ptr, kv.2.id, strncpy (c_str kv.2.spec.name) name_size,
           strncpy (c_str kv.2.spec.type) type_size⟩)
        (by omega) (by omega) (by rw [List.length_set]; exact hb)
      refine ⟨b, ?_, by rw [hb2, List.length_set]⟩
      simp only [get_all_apps_loop, h1, h2, if_false, if_true]
      rw [hb1, hlen]
      congr 2
      omega

/-- Without room for all the nodes still to visit, the function returns
`(int)as.size()` when the index reaches `count`. -/
theorem get_all_apps_loop_small (size name_size type_size : Nat) (count : Int)
    (rest : List (Int × service_node)) :
    ∀ (i : Int) (info_buffer : List dsn_app_info), 0 ≤ i → i ≤ count →
      count < i + rest.length → count ≤ info_buffer.length →
      ∃ b, get_all_apps_loop size name_size type_size count rest i info_buffer =
          some (to_int size, b) ∧ b.length = info_buffer.length := by
  induction rest with
  | nil =>
      intro i info_buffer _ h1 h2 _
      simp only [List.length_nil, Nat.cast_zero, add_zero] at h2
      omega
  | cons kv rest ih =>
      intro i info_buffer h0 hle hc hb
      have hlen : ((kv :: rest).length : Int) = (rest.length : Int) + 1 := by simp
      rw [hlen] at hc
      by_cases h1 : i ≥ count
      · exact ⟨info_buffer, by simp only [get_all_apps_loop, h1, if_true], rfl⟩
      · have h2 : i.toNat < info_buffer.length := by omega
        obtain ⟨b, hb1, hb2⟩ := ih (i + 1)
          (info_buffer.set i.toNat
            ⟨kv.2.app_context_ptr, kv.2.id, strncpy (c_str kv.2.spec.name) name_size,
             strncpy (c_str kv.2.spec.type) type_size⟩)
          (by omega) (by omega) (by omega) (by rw [List.length_set]; exact hb)
        refine ⟨b, ?_, by rw [hb2, List.length_set]⟩
        simp only [get_all_apps_loop, h1, h2, if_false, if_true]
        exact hb1

/-- What `dsn_get_all_apps` returns for `n` apps and a buffer of capacity
`count`: `n` when the buffer is too small, and `n + 1` when it is large enough. -/
theorem get_all_apps_return_value (name_size type_size : Nat)
    (nodes : List (Int × service_node)) (info_buffer : List dsn_app_info) (count : Int)
    (h0 : 0 ≤ count) (hb : count ≤ info_buffer.length)
    (hn : (nodes.length : Int) < 2147483648) :
    ∃ b, dsn_get_all_apps name_size type_size nodes info_buffer count =
        some (if count < nodes.length then (nodes.length : Int) else (nodes.length : Int) + 1,
          b) ∧
      b.length = info_buffer.length := by
  unfold dsn_get_all_apps
  by_cases hc : count < nodes.length
  · obtain ⟨b, h1, h2⟩ := get_all_apps_loop_small nodes.length name_size type_size count nodes
      0 info_buffer (le_refl _) h0 (by omega) hb
    refine ⟨b, ?_, h2⟩
    rw [h1, if_pos hc, tools.to_int_of_nat_lt _ hn]
  · obtain ⟨b, h1, h2⟩ := get_all_apps_loop_large nodes.length name_size type_size count nodes
      0 info_buffer (le_refl _) (by omega) hb
    refine ⟨b, ?_, h2⟩
    rw [h1, if_neg hc, zero_add]

/-- C21 fails on the code: with two started apps and a buffer of capacity 2,
which is large enough, `dsn_get_all_apps` fills the two entries in node order
and returns 3, not 2; with no app and capacity 0 it returns 1, not 0. With a
buffer that is too small (capacity 1) it returns 2, the number of apps. -/
theorem get_all_apps_returns_one_more :
    dsn_get_all_apps 32 32 [(1, node_replica1), (2, node_replica2)]
        [⟨0, 0, List.replicate 32 0, List.replicate 32 0⟩,
         ⟨0, 0, List.replicate 32 0, List.replicate 32 0⟩] 2 =
      some (3,
        [⟨100, 1, [114, 101, 112, 108, 105, 99, 97, 49] ++ List.replicate 24 0,
          [114, 101, 112, 108, 105, 99, 97] ++ List.replicate 25 0⟩,
         ⟨200, 2, [114, 101, 112, 108, 105, 99, 97, 50] ++ List.replicate 24 0,
          [114, 101, 112, 108, 105, 99, 97] ++ List.replicate 25 0⟩]) ∧
    dsn_get_all_apps 32 32 [] [] 0 = some (1, []) ∧
    dsn_get_all_apps 32 32 [(1, node_replica1), (2, node_replica2)]
        [⟨0, 0, List.replicate 32 0, List.replicate 32 0⟩] 1 =
      some (2,
        [⟨100, 1, [114, 101, 112, 108, 105, 99, 97, 49] ++ List.replicate 24 0,
          [114, 101, 112, 108, 105, 99, 97] ++ List.replicate 25 0⟩]) := by
  refine ⟨rfl, rfl, rfl⟩

end dsn
